import Mathlib

/-!
# Verification of the Chip8 assembler core

A shallow embedding of `chip8asm/statement.py` and `chip8asm/program.py`
(the Chip8 assembler by Craig Thomas), together with proofs settling the
frozen specification claims.

Python strings are modelled as Lean `String`s manipulated through their
underlying `List Char`; Python exceptions (`ParseError`, `TranslationError`,
and untyped run-time faults such as `ValueError` / `IndexError`) are modelled
with an `Except` monad over an explicit error type.  All definitions are
structurally recursive (or fueled), so concrete runs reduce inside the
kernel.
-/

namespace Chip8

/-! ## Python primitive models -/

/-- Python's `\s` character class (ASCII part: space, tab, newline, carriage
return, vertical tab, form feed).  The source only ever sees ASCII input. -/
def pyIsSpace (c : Char) : Bool :=
  c = ' ' || c = '\t' || c = '\n' || c = '\r' || c = '\x0b' || c = '\x0c'

/-- Python's `\w` character class (ASCII part: letters, digits, underscore). -/
def wordChar (c : Char) : Bool :=
  c.isAlphanum || c = '_'

/-- The character class `[\w$,+-]` of the operand field in `ASM_LINE_REGEX`. -/
def operandChar (c : Char) : Bool :=
  wordChar c || c = '$' || c = ',' || c = '+' || c = '-'

/-- Value of a single hexadecimal digit character, `none` otherwise.  This is
the digit alphabet accepted by Python's `int(_, 16)`. -/
def hexDigitVal (c : Char) : Option Nat :=
  if 48 ≤ c.toNat ∧ c.toNat ≤ 57 then some (c.toNat - 48)
  else
    match c with
    | 'a' => some 10 | 'b' => some 11 | 'c' => some 12
    | 'd' => some 13 | 'e' => some 14 | 'f' => some 15
    | 'A' => some 10 | 'B' => some 11 | 'C' => some 12
    | 'D' => some 13 | 'E' => some 14 | 'F' => some 15
    | _ => none

/-- Accumulating evaluation of a run of hex digits possibly separated by
single underscores (Python allows `A_B` as a hex literal; an underscore must
be followed by a digit and two underscores may not be adjacent). -/
def hexValGo : List Char → Nat → Option Nat
  | [], acc => some acc
  | c :: cs, acc =>
    match hexDigitVal c with
    | some v => hexValGo cs (acc * 16 + v)
    | none =>
      if c = '_' && (hexDigitVal (cs.headD '_')).isSome then hexValGo cs acc
      else none

/-- Digit-run evaluation; a leading underscore is only legal directly after a
`0x` base marker (`allowLead`). -/
def pyHexDigitsVal (allowLead : Bool) (cs : List Char) : Option Nat :=
  match cs with
  | [] => none
  | c :: _ => if c = '_' && !allowLead then none else hexValGo cs 0

/-- Model of Python's `int(s, 16)`, in steps: the optional sign.  `none`
from the final evaluation models the `ValueError` raise.  (Python
additionally strips surrounding whitespace and accepts non-ASCII digits; no
caller in this program can pass such strings, because operand tokens are
drawn from `[\w$,+-]`.) -/
def pySignStrip (cs : List Char) : List Char :=
  if cs.head? = some '-' || cs.head? = some '+' then cs.tail else cs

/-- Does the (sign-stripped) literal carry a `0x` / `0X` base marker? -/
def pyPfxCheck (cs : List Char) : Bool :=
  cs.take 2 = ['0', 'x'] || cs.take 2 = ['0', 'X']

/-- Strip the base marker when present. -/
def pyPfxStrip (cs : List Char) : List Char :=
  if pyPfxCheck cs then cs.drop 2 else cs

/-- `int(s, 16)` on the character list: optional sign, optional base marker,
then a non-empty digit run. -/
def pyIntHexCore (cs : List Char) : Option Int :=
  match pyHexDigitsVal (pyPfxCheck (pySignStrip cs)) (pyPfxStrip (pySignStrip cs)) with
  | none => none
  | some v => some (if cs.head? = some '-' then -(v : Int) else (v : Int))

def pyIntHex (s : String) : Option Int :=
  pyIntHexCore s.data

/-- Hex digits of `n`, most significant first, lowercase, no leading zeros
(`[0]` digit for `n = 0`), written with explicit fuel so that it is
structurally recursive. -/
def natToHexAux : Nat → Nat → List Char → List Char
  | 0, _, acc => acc
  | fuel + 1, n, acc =>
    if n < 16 then Nat.digitChar n :: acc
    else natToHexAux fuel (n / 16) (Nat.digitChar (n % 16) :: acc)

/-- Hex digit list of a natural number, as produced by Python's `hex`. -/
def natToHexDigits (n : Nat) : List Char :=
  natToHexAux (n + 1) n []

/-- Model of Python's `hex(i)`: `0x…` / `-0x…` with lowercase digits. -/
def pyHex (i : Int) : String :=
  if i < 0 then String.mk ('-' :: '0' :: 'x' :: natToHexDigits i.natAbs)
  else String.mk ('0' :: 'x' :: natToHexDigits i.toNat)

/-- Python's `str.strip()` (whitespace strip on both ends). -/
def pyStrip (s : String) : String :=
  String.mk (((s.data.dropWhile pyIsSpace).reverse.dropWhile pyIsSpace).reverse)

/-- Python's `s[n:]` slicing for a string. -/
def strDrop (s : String) (n : Nat) : String :=
  String.mk (s.data.drop n)

/-- Python's `str.upper()` (ASCII). -/
def strUpper (s : String) : String :=
  String.mk (s.data.map Char.toUpper)

/-- Python's `s[-1]` on a string known to be non-empty (every use site in the
source receives the output of `hex`, which is never empty). -/
def strLast (s : String) : Char :=
  s.data.getLastD ' '

/-- `len(s)` for a Python string. -/
def pyLen (s : String) : Nat :=
  s.data.length

/-- Python's `s.startswith(p)`. -/
def pyStartsWith (s p : String) : Bool :=
  p.data.isPrefixOf s.data

/-- Python's `str.zfill(width)`: left-pad with `'0'` to `width`, keeping a
leading sign character in front of the padding. -/
def pyZfill (s : String) (width : Nat) : String :=
  if pyLen s ≥ width then s
  else
    match s.data with
    | c :: rest =>
      if c = '+' || c = '-' then
        String.mk (c :: List.replicate (width - pyLen s) '0' ++ rest)
      else String.mk (List.replicate (width - pyLen s) '0' ++ s.data)
    | [] => String.mk (List.replicate width '0')

/-- One fueled step list of Python's `str.replace`: scan left to right,
replace each non-overlapping occurrence of `pat`, never re-scanning the
replacement text.  (`pat` is never empty at any call site in the source:
the patterns are `"s"`, `"t"`, and a non-empty run of `"n"`s.) -/
def replaceAux : Nat → List Char → List Char → List Char → List Char
  | 0, _, _, cs => cs
  | fuel + 1, pat, repl, cs =>
    match cs with
    | [] => []
    | c :: cs' =>
      if pat ≠ [] && pat.isPrefixOf (c :: cs') then
        repl ++ replaceAux fuel pat repl ((c :: cs').drop pat.length)
      else c :: replaceAux fuel pat repl cs'

/-- Python's `s.replace(pat, repl)` (for the non-empty patterns used here). -/
def pyReplace (s pat repl : String) : String :=
  String.mk (replaceAux (s.data.length + 1) pat.data repl.data s.data)

/-- Python's `s.split(",")` on the character list. -/
def splitCommaAux : List Char → List Char → List (List Char)
  | [], acc => [acc.reverse]
  | c :: rest, acc =>
    if c = ',' then acc.reverse :: splitCommaAux rest []
    else splitCommaAux rest (c :: acc)

/-- Python's `s.split(",")`. -/
def splitComma (s : String) : List String :=
  (splitCommaAux s.data []).map String.mk

/-- Truthiness of an optional string field (Python `if self.field:`):
`None` and `""` are falsy. -/
def pyTruthy : Option String → Bool
  | none => false
  | some s => s ≠ ""

/-! ## A matcher for the source's line regex

`ASM_LINE_REGEX` is a plain sequence of character-class atoms
(`^(\w*)\s+(\w*)\s+([\w$,+-]*)\s*[#]*\s*(.*)$`) with no alternation or
nested groups, so Python's leftmost-greedy backtracking semantics are
reproduced exactly by trying, for each atom in turn, the longest possible
span first.  A final `$` matches at the end of the string or just before a
terminating newline. -/

/-- One regex atom: a character class repeated at least `low` times,
greedily. -/
structure RAtom where
  pred : Char → Bool
  low : Nat

/-- Try `f` on `hi, hi - 1, …, lo` in that order, returning the first
success (the backtracking order of a greedy `*` / `+`). -/
def tryDown (f : Nat → Option α) (lo : Nat) : Nat → Option α
  | 0 => if lo = 0 then f 0 else none
  | k + 1 =>
    if k + 1 < lo then none
    else
      match f (k + 1) with
      | some r => some r
      | none => tryDown f lo k

/-- Longest span of `p`-characters at the head of `cs`. -/
def takeMax (p : Char → Bool) (cs : List Char) : Nat :=
  (cs.takeWhile p).length

/-- Match a sequence of atoms against `cs`, leftmost-greedy, anchored at the
start; the trailing `$` accepts a remaining `""` or `"\n"`.  Returns the
captured span of every atom. -/
def matchSeq : List RAtom → List Char → Option (List (List Char))
  | [] => fun cs => if cs = [] || cs = ['\n'] then some [] else none
  | a :: rest => fun cs =>
    tryDown
      (fun k => (matchSeq rest (cs.drop k)).map (fun caps => cs.take k :: caps))
      a.low (takeMax a.pred cs)

/-- The atom sequence of `ASM_LINE_REGEX`:
`^(\w*)\s+(\w*)\s+([\w$,+-]*)\s*[#]*\s*(.*)$`.  The `.` of the last atom
does not match a newline. -/
def ASM_LINE_ATOMS : List RAtom :=
  [⟨wordChar, 0⟩, ⟨pyIsSpace, 1⟩, ⟨wordChar, 0⟩, ⟨pyIsSpace, 1⟩,
   ⟨operandChar, 0⟩, ⟨pyIsSpace, 0⟩, ⟨(· = '#'), 0⟩, ⟨pyIsSpace, 0⟩,
   ⟨(· ≠ '\n'), 0⟩]

/-- `BLANK_LINE_REGEX` (`^\s*$`, via `re.search`): the line is blank iff all
its characters are whitespace. -/
def isBlankLine (s : String) : Bool :=
  s.data.all pyIsSpace

/-- `COMMENT_LINE_REGEX` (`^\s*#\s*(?P<comment>.*)$`, via `re.match`): after
optional leading whitespace a `#` starts a comment line; the captured group
is the rest of the line.  (The `\s*` swallowed by the group boundary is
immaterial to the source, which strips the captured group; input lines never
contain an interior newline, since they are produced by line-wise reads.) -/
def matchCommentLine (s : String) : Option String :=
  let rest := s.data.dropWhile pyIsSpace
  match rest with
  | '#' :: tail => some (String.mk tail)
  | _ => none

/-! ## The data model: `Operation` and `Statement` -/

/-- The `Operation` namedtuple of `statement.py`. -/
structure Operation where
  mnemonic : String
  op : String
  operands : Nat
  source : Nat
  target : Nat
  numeric : Nat
deriving DecidableEq, Repr

/-- The `OPERATIONS` table of `statement.py`, in source order. -/
def OPERATIONS : List Operation :=
  [⟨"SYS", "0nnn", 1, 0, 0, 3⟩,
   ⟨"CLR", "00E0", 0, 0, 0, 0⟩,
   ⟨"RTS", "00EE", 0, 0, 0, 0⟩,
   ⟨"JUMP", "1nnn", 1, 0, 0, 3⟩,
   ⟨"CALL", "2nnn", 1, 0, 0, 3⟩,
   ⟨"SKE", "3snn", 2, 1, 0, 2⟩,
   ⟨"SKNE", "4snn", 2, 1, 0, 2⟩,
   ⟨"SKRE", "5st0", 2, 1, 1, 0⟩,
   ⟨"LOAD", "6snn", 2, 1, 0, 2⟩,
   ⟨"ADD", "7snn", 2, 1, 0, 2⟩,
   ⟨"MOVE", "8st0", 2, 1, 1, 0⟩,
   ⟨"OR", "8st1", 2, 1, 1, 0⟩,
   ⟨"AND", "8st2", 2, 1, 1, 0⟩,
   ⟨"XOR", "8st3", 2, 1, 1, 0⟩,
   ⟨"ADDR", "8st4", 2, 1, 1, 0⟩,
   ⟨"SUB", "8st5", 2, 1, 1, 0⟩,
   ⟨"SHR", "8st6", 1, 1, 1, 0⟩,
   ⟨"SUBN", "8st7", 2, 1, 1, 0⟩,
   ⟨"SHL", "8stE", 1, 1, 1, 0⟩,
   ⟨"SKRNE", "9st0", 2, 1, 1, 0⟩,
   ⟨"LOADI", "Annn", 1, 0, 0, 3⟩,
   ⟨"JUMPI", "Bnnn", 1, 0, 0, 3⟩,
   ⟨"RAND", "Ctnn", 2, 0, 1, 2⟩,
   ⟨"DRAW", "Dstn", 3, 1, 1, 1⟩,
   ⟨"SKPR", "Es9E", 1, 1, 0, 0⟩,
   ⟨"SKUP", "EsA1", 1, 1, 0, 0⟩,
   ⟨"MOVED", "Ft07", 1, 0, 1, 0⟩,
   ⟨"KEYD", "Ft0A", 1, 0, 1, 0⟩,
   ⟨"LOADD", "Fs15", 1, 1, 0, 0⟩,
   ⟨"LOADS", "Fs18", 1, 1, 0, 0⟩,
   ⟨"ADDI", "Fs1E", 1, 1, 0, 0⟩,
   ⟨"LDSPR", "Fs29", 1, 1, 0, 0⟩,
   ⟨"BCD", "Fs33", 1, 1, 0, 0⟩,
   ⟨"STOR", "Fs55", 1, 1, 0, 0⟩,
   ⟨"READ", "Fs65", 1, 1, 0, 0⟩,
   ⟨"SCRD", "00Cn", 1, 0, 0, 1⟩,
   ⟨"SCRR", "00FB", 0, 0, 0, 0⟩,
   ⟨"SCRL", "00FC", 0, 0, 0, 0⟩,
   ⟨"EXIT", "00FD", 0, 0, 0, 0⟩,
   ⟨"EXTD", "00FE", 0, 0, 0, 0⟩,
   ⟨"EXTE", "00FF", 0, 0, 0, 0⟩,
   ⟨"SRPL", "Fs75", 1, 1, 0, 0⟩,
   ⟨"LRPL", "Fs85", 1, 1, 0, 0⟩,
   ⟨"SAVESUB", "5st2", 2, 1, 1, 0⟩,
   ⟨"AUDIO", "F002", 0, 0, 0, 0⟩,
   ⟨"PLANE", "Fn03", 1, 0, 0, 1⟩,
   ⟨"PITCH", "Fs3A", 1, 1, 0, 0⟩]

/-- The pseudo-operation mnemonics. -/
def PSEUDO_OPERATIONS : List String := ["FCB", "FDB"]

/-- Error model: `ParseError` and `TranslationError` are the exceptions the
source raises deliberately; `valueFault` models an uncaught `ValueError`
(from `int(_, 16)` or `bytearray`), `indexFault` an uncaught `IndexError`
(list subscript out of range), and `pyFault` any other uncaught run-time
fault (e.g. an attribute access on `None`). -/
inductive Err where
  | parse (msg : String)
  | translation (msg : String)
  | valueFault (msg : String)
  | indexFault (msg : String)
  | pyFault (msg : String)
deriving DecidableEq, Repr

deriving instance DecidableEq for Except

/-- The `Statement` object of `statement.py` (the unused `size` attribute is
kept for completeness). -/
structure Statement where
  empty : Bool := true
  comment_only : Bool := false
  operation : Option Operation := none
  label : Option String := none
  operands : Option String := none
  comment : Option String := none
  size : Nat := 0
  address : Option String := none
  mnemonic : Option String := none
  op_code : Option String := none
  source : Option String := none
  target : Option String := none
  numeric : Option String := none
deriving DecidableEq, Repr

namespace Statement

/-- `Statement.get_label` (`self.label or ""`). -/
def get_label (st : Statement) : String :=
  match st.label with
  | none => ""
  | some s => s

/-- `Statement.is_pseudo_op` (`self.mnemonic in PSEUDO_OPERATIONS`; a `None`
mnemonic is not in the list). -/
def is_pseudo_op (st : Statement) : Bool :=
  match st.mnemonic with
  | none => false
  | some m => PSEUDO_OPERATIONS.contains m

/-- `Statement.is_register`: `REG_LINE_REGEX` is `[rR][0-9a-fA-F]$` applied
with `re.match`, so it accepts exactly two-character register tokens — or
the same followed by a single trailing newline, which Python's `$` also
accepts.  (No operand token can actually carry a newline, since the operand
field of `ASM_LINE_REGEX` is drawn from `[\w$,+-]`.) -/
def is_register (s : String) : Bool :=
  match s.data with
  | r :: d :: rest =>
    (r = 'r' || r = 'R') && (hexDigitVal d).isSome &&
      (rest = [] || rest = ['\n'])
  | _ => false

/-- `Statement.get_value`: `hex(int(string[1:], 16))[2:].upper()` when the
string starts with `$`, otherwise the string itself (a label). -/
def get_value (s : String) : Except Err String :=
  if pyStartsWith s "$" then
    match pyIntHex (strDrop s 1) with
    | none =>
      .error (.valueFault ("invalid literal for int() with base 16: " ++ strDrop s 1))
    | some v => .ok (strUpper (strDrop (pyHex v) 2))
  else .ok s

/-- `Statement.get_register`: reject non-register tokens, then return
`hex(int(string[1:], 16))[-1].upper()` — the uppercase hex digit of the
register number. -/
def get_register (s : String) : Except Err String :=
  if ¬ is_register s then
    .error (.translation ("expected register in r0-rF, but got [" ++ s ++ "]"))
  else if pyLen s > 2 then
    .error (.translation ("invalid register [" ++ s ++ "]"))
  else
    match pyIntHex (strDrop s 1) with
    | none =>
      .error (.valueFault ("invalid literal for int() with base 16: " ++ strDrop s 1))
    | some v => .ok (String.mk [(strLast (pyHex v)).toUpper])

/-- `Statement.parse_line`. -/
def parse_line (st : Statement) (line : String) : Except Err Statement :=
  if isBlankLine line then .ok st
  else
    match matchCommentLine line with
    | some c =>
      .ok { st with empty := false, comment_only := true, comment := some (pyStrip c) }
    | none =>
      match matchSeq ASM_LINE_ATOMS line.data with
      | some caps =>
        let lbl := String.mk (caps.getD 0 [])
        let mne := String.mk (caps.getD 2 [])
        let ops := String.mk (caps.getD 4 [])
        let cmt := pyStrip (String.mk (caps.getD 8 []))
        .ok { st with
          empty := false,
          label := if lbl = "" then none else some lbl,
          mnemonic := if mne = "" then none else some mne,
          operands := if ops = "" then none else some ops,
          comment := if cmt = "" then none else some cmt }
      | none => .error (.parse ("could not parse line [" ++ line ++ "]"))

/-- Slot update of `Statement.translate`: an undeclared slot (no consumed
value) keeps its previous content. -/
def mergeSlot (newv old : Option String) : Option String :=
  match newv with
  | some v => some v
  | none => old

/-- The operand token list of `Statement.translate`:
`self.operands.split(",") if self.operands else []`. -/
def operand_tokens (operands : Option String) : List String :=
  match operands with
  | none => []
  | some s => if s = "" then [] else splitComma s

/-- The slot-consumption loop of `Statement.translate`: walk
`operand_counter` through the token list, consuming — in this fixed order —
one register token for the source slot if the template declares one, one
register token for the target slot if declared, and one value token for the
numeric slot if declared.  Returns the consumed slot values (`none` for an
undeclared slot); a subscript beyond the end of the token list models
Python's `IndexError`. -/
def consume_slots (op : Operation) (tokens : List String) :
    Except Err (Option String × Option String × Option String) := do
  let (src, c1) ←
    if op.source ≠ 0 then
      match tokens.get? 0 with
      | none => Except.error (Err.indexFault "list index out of range")
      | some tok => do
        let v ← get_register tok
        pure (some v, 1)
    else pure (none, 0)
  let (tgt, c2) ←
    if op.target ≠ 0 then
      match tokens.get? c1 with
      | none => Except.error (Err.indexFault "list index out of range")
      | some tok => do
        let v ← get_register tok
        pure (some v, c1 + 1)
    else pure (none, c1)
  if op.numeric ≠ 0 then
    match tokens.get? c2 with
    | none => Except.error (Err.indexFault "list index out of range")
    | some tok => do
      let v ← get_value tok
      pure (src, tgt, some v)
  else pure (src, tgt, none)

/-- `Statement.translate`.  The four stages of the source method: the
comment/pseudo-op early returns, the linear search of `OPERATIONS` (which
leaves `self.operation` untouched when no mnemonic matches), the operand
count check, and the slot consumption (`consume_slots`); a slot the
template does not declare keeps its previous value. -/
def translate (st : Statement) : Except Err Statement :=
  if st.comment_only then .ok st
  else if st.is_pseudo_op then
    if pyTruthy st.operands then .ok st
    else
      .error (.translation
        ("pseudo operation [" ++ (st.mnemonic.getD "") ++ "] requires 1 operand"))
  else
    let stO :=
      match OPERATIONS.find? (fun o => some o.mnemonic = st.mnemonic) with
      | some o => { st with operation := some o }
      | none => st
    match stO.operation with
    | none => .error (.translation ("invalid mnemonic [" ++ (st.mnemonic.getD "") ++ "]'"))
    | some op =>
      let tokens := operand_tokens stO.operands
      if tokens.length ≠ op.operands then
        .error (.translation
          ("expected " ++ toString op.operands ++ " operand(s), but got " ++
            toString tokens.length))
      else
        match consume_slots op tokens with
        | .error e => .error e
        | .ok (src, tgt, num) =>
          .ok { stO with
            source := mergeSlot src stO.source,
            target := mergeSlot tgt stO.target,
            numeric := mergeSlot num stO.numeric }

/-- `Statement.replace_label`: rewrite each of the source/target/numeric
slots whose current content equals `label` (a `None` slot never equals a
string). -/
def replace_label (st : Statement) (label value : String) : Statement :=
  { st with
    source := if st.source = some label then some value else st.source,
    target := if st.target = some label then some value else st.target,
    numeric := if st.numeric = some label then some value else st.numeric }

/-- `Statement.fix_values`.  For a pseudo-op the operand must start with `$`
(`self.operands.startswith` on `None` would be an `AttributeError`); for a
real instruction the template's `s` / `t` placeholders and the `n`-run are
replaced by the slot values, with the width checks of the source. -/
def fix_values (st : Statement) : Except Err Statement :=
  if st.comment_only then .ok st
  else if st.is_pseudo_op then
    match st.operands with
    | none => .error (.pyFault "AttributeError: NoneType object has no attribute")
    | some ops =>
      if ¬ pyStartsWith ops "$" then
        .error (.translation ("expected value starting with $, but got " ++ ops))
      else do
        let v ← get_value ops
        pure { st with op_code := some v }
  else
    match st.operation with
    | none => .error (.pyFault "AttributeError: NoneType object has no attribute")
    | some op => do
      let code0 := op.op
      let code1 ←
        if op.source = 1 then
          match st.source with
          | none => Except.error (Err.pyFault "TypeError: object of type NoneType has no len()")
          | some s =>
            if pyLen s > 1 then
              Except.error (Err.translation ("expected source in 0-F, but got " ++ s))
            else pure (pyReplace code0 "s" s)
        else pure code0
      let code2 ←
        if op.target = 1 then
          match st.target with
          | none => Except.error (Err.pyFault "TypeError: object of type NoneType has no len()")
          | some t =>
            if pyLen t > 1 then
              Except.error (Err.translation ("expected target in 0-F, but got " ++ t))
            else pure (pyReplace code1 "t" t)
        else pure code1
      if op.numeric ≠ 0 then
        match st.numeric with
        | none => Except.error (Err.pyFault "TypeError: object of type NoneType has no len()")
        | some nv =>
          if pyLen nv > op.numeric then
            Except.error (Err.translation
              ("expected numeric of length " ++ toString op.numeric ++
                ", but was length " ++ toString (pyLen nv) ++ " [" ++ nv ++ "]"))
          else
            pure { st with
              op_code := some (pyReplace code2 (String.mk (List.replicate op.numeric 'n'))
                (pyZfill nv op.numeric)) }
      else pure { st with op_code := some code2 }

end Statement

/-! ## The `Program` pipeline (`program.py`) -/

/-- A symbol-table value: pass 2 stores the statement *index* (a Python
`int`), pass 3 overwrites it with the *hex address string*.  Slicing an
`int` with `[2:]` would be a `TypeError`. -/
inductive SymVal where
  | idx (i : Nat)
  | addr (s : String)
deriving DecidableEq, Repr

/-- The symbol table: a Python `dict` is insertion-ordered, so it is
modelled as an association list where assignment to an existing key updates
in place and a new key is appended. -/
abbrev SymTab := List (String × SymVal)

/-- `label in self.symbol_table`. -/
def symTabContains (tab : SymTab) (k : String) : Bool :=
  tab.any (fun p => p.1 = k)

/-- `self.symbol_table[k] = v` (insertion-order preserving). -/
def symTabSet (tab : SymTab) (k : String) (v : SymVal) : SymTab :=
  if symTabContains tab k then tab.map (fun p => if p.1 = k then (k, v) else p)
  else tab ++ [(k, v)]

/-- `self.symbol_table[k]` (first — in a dict, only — binding of the key). -/
def symTabGet : SymTab → String → Option SymVal
  | [], _ => none
  | p :: rest, k => if p.1 = k then some p.2 else symTabGet rest k

/-- Pass 2, `Program.translate_statements`: translate each statement in
order and seed the symbol table with `label ↦ index`, aborting with the
`redefined` error when a label is already present (`Program.throw_error`
calls `sys.exit(1)`, so the duplicate assignment is never executed). -/
def translate_statements_go : List Statement → Nat → SymTab → Except Err (List Statement × SymTab)
  | [], _, tab => .ok ([], tab)
  | st :: rest, i, tab => do
    let st' ← st.translate
    let lbl := st'.get_label
    if lbl ≠ "" then
      if symTabContains tab lbl then
        Except.error (Err.translation ("label [" ++ lbl ++ "] redefined"))
      else do
        let (rest', tab') ← translate_statements_go rest (i + 1) (symTabSet tab lbl (.idx i))
        pure (st' :: rest', tab')
    else do
      let (rest', tab') ← translate_statements_go rest (i + 1) tab
      pure (st' :: rest', tab')

/-- Pass 2 from an empty table, as `Program.__init__` sets it up. -/
def translate_statements (stmts : List Statement) : Except Err (List Statement × SymTab) :=
  translate_statements_go stmts 0 []

/-- The Python comparison `statement.operation == FCB` in
`Program.set_addresses`: the `operation` attribute is `None` or an
`Operation` namedtuple, and `FCB` is the *string* `"FCB"`, so the comparison
is `False` for every possible value of the attribute (Python never considers
`None` or a namedtuple equal to a `str`); the embedding evaluates the same
comparison case by case. -/
def operationEqFCB (st : Statement) : Bool :=
  match st.operation with
  | none => false
  | some _ => false

/-- Pass 3, `Program.set_addresses`: stamp `hex(address)` on every statement
(re-pointing its label, if any, at the current address first) and advance
the counter for non-blank, non-comment statements by
`1 if statement.operation == FCB else 2`. -/
def set_addresses_go : List Statement → SymTab → Nat → List Statement × SymTab × Nat
  | [], tab, a => ([], tab, a)
  | st :: rest, tab, a =>
    let lbl := st.get_label
    let tab1 := if lbl ≠ "" then symTabSet tab lbl (.addr (pyHex a)) else tab
    let st1 := { st with address := some (pyHex a) }
    let a1 := if ¬ st1.comment_only && ¬ st1.empty then
        a + (if operationEqFCB st1 then 1 else 2)
      else a
    let (rest', tab', a') := set_addresses_go rest tab1 a1
    (st1 :: rest', tab', a')

/-- Pass 3 from the fixed origin `0x200` of `Program.__init__`. -/
def set_addresses (stmts : List Statement) (tab : SymTab) : List Statement × SymTab × Nat :=
  set_addresses_go stmts tab 0x200

/-- `value[2:]` on a symbol-table value, as pass 4 performs it. -/
def symValSlice (v : SymVal) : Except Err String :=
  match v with
  | .addr s => .ok (strDrop s 2)
  | .idx _ => .error (.pyFault "TypeError: int object is not subscriptable")

/-- Error-propagating map over a list (the `for` loops of `program.py` that
abort on the first raised exception). -/
def mapME (f : α → Except Err β) : List α → Except Err (List β)
  | [] => .ok []
  | x :: xs => do
    let y ← f x
    let ys ← mapME f xs
    pure (y :: ys)

/-- Error-propagating fold over a list. -/
def foldME (f : β → α → Except Err β) : List α → β → Except Err β
  | [], b => .ok b
  | x :: xs, b => do
    let b' ← f b x
    foldME f xs b'

/-- The inner loop of pass 4: `statement.replace_label(label, value[2:])`
for every symbol-table item, in table order. -/
def replace_all_labels (tab : SymTab) (st : Statement) : Except Err Statement :=
  foldME (fun s p => do
    let v ← symValSlice p.2
    pure (s.replace_label p.1 v)) tab st

/-- Pass 4 body for one statement: substitute every symbol (in table order)
into the slots, then `fix_values`. -/
def fix_opcodes_one (tab : SymTab) (st : Statement) : Except Err Statement := do
  let st1 ← replace_all_labels tab st
  st1.fix_values

/-- Pass 4, `Program.fix_opcodes`. -/
def fix_opcodes (stmts : List Statement) (tab : SymTab) : Except Err (List Statement) :=
  mapME (fix_opcodes_one tab) stmts

/-- `Program.parse_file` over a list of already-read lines: parse each one
into a fresh `Statement`, keeping the non-empty ones. -/
def parse_lines : List String → Except Err (List Statement)
  | [] => .ok []
  | l :: ls => do
    let st ← Statement.parse_line {} l
    let rest ← parse_lines ls
    pure (if ¬ st.empty then st :: rest else rest)

/-- The state of a `Program` after the four passes. -/
structure AsmResult where
  statements : List Statement
  symbol_table : SymTab
  address : Nat
deriving DecidableEq, Repr

/-- The full pipeline as `assembler.main` drives it: `parse_file`,
`translate_statements`, `set_addresses`, `fix_opcodes`. -/
def assemble (lines : List String) : Except Err AsmResult := do
  let stmts ← parse_lines lines
  let (stmts1, tab1) ← translate_statements stmts
  let (stmts2, tab2, a) := set_addresses stmts1 tab1
  let stmts3 ← fix_opcodes stmts2 tab2
  pure ⟨stmts3, tab2, a⟩

/-! ## Binary emission (`Program.save_binary_file`, minus the file I/O) -/

/-- The slices `op_code[index:index+2]` for `index in range(0, len, 2)`:
two characters at a time, a final odd character alone. -/
def byteChunks : Nat → List Char → List (List Char)
  | 0, _ => []
  | _ + 1, [] => []
  | _ + 1, [c] => [[c]]
  | fuel + 1, c1 :: c2 :: rest => [c1, c2] :: byteChunks fuel rest

/-- `int(op_code[index:index+2], 16)` over the chunks of one statement's
op code (`len(None)` would be a `TypeError`). -/
def statement_codes (st : Statement) : Except Err (List Int) :=
  match st.op_code with
  | none => .error (.pyFault "TypeError: object of type NoneType has no len()")
  | some code =>
    mapME (fun ch =>
      match pyIntHex (String.mk ch) with
      | none =>
        Except.error (Err.valueFault ("invalid literal for int() with base 16: " ++ String.mk ch))
      | some v => Except.ok v) (byteChunks (pyLen code + 1) code.data)

/-- `Program.save_binary_file` up to the `write` call: collect the machine
code of every non-empty, non-comment statement and build the `bytearray`
(whose constructor requires every value to lie in `0 … 255`). -/
def save_binary (stmts : List Statement) : Except Err (List Nat) := do
  let codes ← mapME statement_codes (stmts.filter (fun st => ¬ st.empty && ¬ st.comment_only))
  mapME (fun v =>
    if 0 ≤ v ∧ v < 256 then pure v.toNat
    else Except.error (Err.valueFault "bytes must be in range(0, 256)")) codes.flatten

/-- Assemble and emit: the bytes the assembler writes for the given source
lines. -/
def outputBytes (lines : List String) : Except Err (List Nat) := do
  let r ← assemble lines
  save_binary r.statements

/-! ## Claim-side definitions

These definitions follow the wording of the specification, for comparison
against the behaviour of the embedded source. -/

/-- The statement width claimed by the spec: 1 byte for the single-byte
pseudo-op `FCB`, 2 bytes for every other instruction or pseudo-op. -/
def claimWidth (st : Statement) : Nat :=
  if st.mnemonic = some "FCB" then 1 else 2

/-- The spec's claimed output length: the sum of `claimWidth` over the
non-blank, non-comment statements. -/
def claimLengthSum (stmts : List Statement) : Nat :=
  ((stmts.filter (fun st => ¬ st.empty && ¬ st.comment_only)).map claimWidth).sum

/-- The claim's lexical shape for a register token: the letter `r` or `R`
followed by exactly one hexadecimal digit. -/
def claimRegToken (s : String) : Bool :=
  match s.data with
  | [r, d] => (r = 'r' || r = 'R') && (hexDigitVal d).isSome
  | _ => false

/-- The spec's token-consumption contract, stated with explicit token
indices: tokens are consumed in the fixed order **source, target, numeric**
and a slot consumes a token only if the template declares it, so the source
slot reads token 0, the target slot reads the token after the source slot
(if any), and the numeric slot reads the token after both. -/
def spec_consume (op : Operation) (tokens : List String) :
    Except Err (Option String × Option String × Option String) := do
  let tIdx : Nat := if op.source ≠ 0 then 1 else 0
  let nIdx : Nat := tIdx + (if op.target ≠ 0 then 1 else 0)
  let src ←
    if op.source ≠ 0 then
      match tokens.get? 0 with
      | none => Except.error (Err.indexFault "list index out of range")
      | some tok => (Statement.get_register tok).map some
    else pure none
  let tgt ←
    if op.target ≠ 0 then
      match tokens.get? tIdx with
      | none => Except.error (Err.indexFault "list index out of range")
      | some tok => (Statement.get_register tok).map some
    else pure none
  let num ←
    if op.numeric ≠ 0 then
      match tokens.get? nIdx with
      | none => Except.error (Err.indexFault "list index out of range")
      | some tok => (Statement.get_value tok).map some
    else pure none
  pure (src, tgt, num)

/-- Characters that are not slot placeholders (`s`, `t`, `n`). -/
def notPH (c : Char) : Bool :=
  !(c = 's' || c = 't' || c = 'n')

/-- Decompose a template into the placeholder-free segments around the
declared source slot, target slot, and numeric run, in that order. -/
def tmplDecomp (op : Operation) : List Char × List Char × List Char × List Char :=
  let t := op.op.data
  let A := t.takeWhile notPH
  let r1 := (t.dropWhile notPH).drop op.source
  let B := r1.takeWhile notPH
  let r2 := (r1.dropWhile notPH).drop op.target
  let C := r2.takeWhile notPH
  let D := (r2.dropWhile notPH).drop op.numeric
  (A, B, C, D)

/-- The template invariant of the opcode table: gluing the decomposition
segments back around `source` copies of `s`, `target` copies of `t` and
`numeric` copies of `n` reproduces the template, the trailing segment is
placeholder-free, the template has 4 characters, and the slot counts are in
range. -/
def templateOK (op : Operation) : Bool :=
  ((tmplDecomp op).1 ++ List.replicate op.source 's' ++ (tmplDecomp op).2.1 ++
      List.replicate op.target 't' ++ (tmplDecomp op).2.2.1 ++
      List.replicate op.numeric 'n' ++ (tmplDecomp op).2.2.2 = op.op.data) &&
    (tmplDecomp op).2.2.2.all notPH && (op.op.data.length = 4) &&
    (op.source ≤ 1) && (op.target ≤ 1) && (op.numeric ≤ 3)

/-- The claim-side final opcode of pass 4: each placeholder of the template
replaced positionally by its slot value, the numeric value left-padded with
zeros to exactly the declared width. -/
def spec_substituted_opcode (op : Operation) (src tgt nv : String) : String :=
  String.mk ((tmplDecomp op).1 ++ (if op.source = 1 then src.data else []) ++
    (tmplDecomp op).2.1 ++ (if op.target = 1 then tgt.data else []) ++
    (tmplDecomp op).2.2.1 ++
    (if op.numeric ≠ 0 then (pyZfill nv op.numeric).data else []) ++
    (tmplDecomp op).2.2.2)

/-- The number of bytes `save_binary` emits for one statement: the hex
digits of its op code, chunked two at a time with a final odd digit alone. -/
def emittedWidth (st : Statement) : Nat :=
  (pyLen (st.op_code.getD "") + 1) / 2

/-! ## Helper lemmas -/

/-- Every template of the opcode table satisfies the decomposition
invariant. -/
theorem all_templates_ok : OPERATIONS.all templateOK = true := by decide

/-- `str.replace` with a single-character pattern and single-character
replacement is a character map. -/
theorem replaceAux_single (p r : Char) :
    ∀ (cs : List Char) (fuel : Nat), cs.length < fuel →
    replaceAux fuel [p] [r] cs = cs.map (fun c => if c = p then r else c) := by
  intro cs
  induction cs with
  | nil =>
    intro fuel hf
    cases fuel with
    | zero => omega
    | succ f => simp [replaceAux]
  | cons c cs' ih =>
    intro fuel hf
    cases fuel with
    | zero => omega
    | succ f =>
      unfold replaceAux
      by_cases hc : c = p
      · subst hc
        have hpre : ([c].isPrefixOf (c :: cs')) = true := by simp [List.isPrefixOf]
        simp only [hpre, ne_eq, reduceCtorEq, not_false_eq_true, decide_True,
          Bool.true_and, if_true, List.length_cons, List.length_nil,
          List.drop_succ_cons, List.drop_zero, List.map_cons, if_pos rfl]
        rw [ih f (by simpa using hf)]
        simp
      · have hpre : ([p].isPrefixOf (c :: cs')) = false := by
          simp [List.isPrefixOf]
          exact fun hcp => absurd hcp.symm hc
        simp only [hpre, Bool.and_false, Bool.false_eq_true, if_false, List.map_cons,
          if_neg hc]
        rw [ih f (by simpa using hf)]

/-- `pyReplace` with single-character pattern and replacement, as a map. -/
theorem pyReplace_single (s : String) (p r : Char) :
    pyReplace s (String.mk [p]) (String.mk [r]) =
      String.mk (s.data.map (fun c => if c = p then r else c)) := by
  unfold pyReplace
  rw [replaceAux_single p r s.data (s.data.length + 1) (by omega)]

/-- `str.replace` leaves a string alone when the pattern's first character
does not occur. -/
theorem replaceAux_head_notin (ph : Char) (pt repl : List Char) :
    ∀ (cs : List Char) (fuel : Nat), cs.length < fuel → ph ∉ cs →
    replaceAux fuel (ph :: pt) repl cs = cs := by
  intro cs
  induction cs with
  | nil =>
    intro fuel hf _
    cases fuel with
    | zero => omega
    | succ f => simp [replaceAux]
  | cons c cs' ih =>
    intro fuel hf hmem
    cases fuel with
    | zero => omega
    | succ f =>
      rw [List.mem_cons] at hmem
      push_neg at hmem
      have hpre : ((ph :: pt).isPrefixOf (c :: cs')) = false := by
        simp [List.isPrefixOf]
        exact fun hcp => absurd hcp hmem.1
      unfold replaceAux
      simp only [hpre, Bool.and_false, Bool.false_eq_true, if_false]
      rw [ih f (by simpa using hf) hmem.2]

/-- `str.replace` on the unique occurrence of the placeholder run. -/
theorem replaceAux_run (w : Nat) (hw : 0 < w) (repl : List Char) :
    ∀ (pre post : List Char) (fuel : Nat),
    (pre ++ List.replicate w 'n' ++ post).length < fuel →
    'n' ∉ pre → 'n' ∉ post →
    replaceAux fuel (List.replicate w 'n') repl (pre ++ List.replicate w 'n' ++ post) =
      pre ++ repl ++ post := by
  intro pre
  induction pre with
  | nil =>
    intro post fuel hf _ hpost
    cases fuel with
    | zero => simp at hf
    | succ f =>
      obtain ⟨w', rfl⟩ : ∃ w', w = w' + 1 := ⟨w - 1, by omega⟩
      simp only [List.nil_append]
      rw [show List.replicate (w' + 1) 'n' ++ post =
        'n' :: (List.replicate w' 'n' ++ post) by simp [List.replicate_succ]]
      unfold replaceAux
      have hcond : (decide ¬(List.replicate (w' + 1) 'n' = []) &&
          (List.replicate (w' + 1) 'n').isPrefixOf
            ('n' :: (List.replicate w' 'n' ++ post))) = true := by
        rw [Bool.and_eq_true]
        refine ⟨by simp, ?_⟩
        rw [List.isPrefixOf_iff_prefix]
        exact ⟨post, by simp [List.replicate_succ]⟩
      simp only [ne_eq, hcond, if_true]
      have hdrop : ('n' :: (List.replicate w' 'n' ++ post)).drop
          (List.replicate (w' + 1) 'n').length = post := by
        rw [List.length_replicate]
        simp only [List.drop_succ_cons]
        exact List.drop_left' (by simp)
      rw [hdrop]
      rw [show List.replicate (w' + 1) 'n' = 'n' :: List.replicate w' 'n' from
        List.replicate_succ 'n' w']
      rw [replaceAux_head_notin 'n' (List.replicate w' 'n') repl post f
        (by simp at hf; omega) hpost]
  | cons c pre' ih =>
    intro post fuel hf hpre hpost
    cases fuel with
    | zero => simp at hf
    | succ f =>
      rw [List.mem_cons] at hpre
      push_neg at hpre
      obtain ⟨w', rfl⟩ : ∃ w', w = w' + 1 := ⟨w - 1, by omega⟩
      have hpfx : ((List.replicate (w' + 1) 'n').isPrefixOf
          (c :: (pre' ++ List.replicate (w' + 1) 'n' ++ post))) = false := by
        rw [List.replicate_succ]
        simp [List.isPrefixOf]
        exact fun hcp => absurd hcp hpre.1
      have hsplit : (c :: pre') ++ List.replicate (w' + 1) 'n' ++ post =
          c :: (pre' ++ List.replicate (w' + 1) 'n' ++ post) := by simp
      rw [hsplit]
      unfold replaceAux
      simp only [hpfx, Bool.and_false, Bool.false_eq_true, if_false]
      rw [ih post f (by simp at hf ⊢; omega) hpre.2 hpost]
      simp

/-- A map that fixes every element of a list is the identity there. -/
theorem map_subst_id {p r : Char} {l : List Char} (h : ∀ c ∈ l, c ≠ p) :
    l.map (fun c => if c = p then r else c) = l := by
  induction l with
  | nil => simp
  | cons c l ih =>
    have hc : c ≠ p := h c (List.mem_cons_self c l)
    simp only [List.map_cons, if_neg hc]
    rw [ih (fun x hx => h x (List.mem_cons_of_mem c hx))]

theorem notPH_spec {x : Char} (h : notPH x = true) : x ≠ 's' ∧ x ≠ 't' ∧ x ≠ 'n' := by
  unfold notPH at h
  simp only [Bool.not_eq_true', Bool.or_eq_false_iff, decide_eq_false_iff_not] at h
  exact ⟨h.1.1, h.1.2, h.2⟩

/-- Character substitution over a string shaped `X ++ pᵏ ++ Y` where the
pattern character occurs only in the middle run. -/
theorem map_subst_once (p r : Char) (X Y : List Char) (k : Nat)
    (hX : ∀ x ∈ X, x ≠ p) (hY : ∀ x ∈ Y, x ≠ p) :
    (X ++ (List.replicate k p ++ Y)).map (fun x => if x = p then r else x) =
      X ++ (List.replicate k r ++ Y) := by
  simp only [List.map_append, List.map_replicate, if_pos rfl]
  rw [map_subst_id hX, map_subst_id hY]
  simp

theorem exc_bind_ok (a : α) (f : α → Except Err β) : (Except.ok a >>= f) = f a := rfl

theorem exc_pure (a : α) : (pure a : Except Err α) = Except.ok a := rfl

theorem exc_bind_err (e : Err) (f : α → Except Err β) :
    ((Except.error e : Except Err α) >>= f) = Except.error e := rfl

theorem replace_label_fields (st : Statement) (l v : String) :
    (st.replace_label l v).empty = st.empty ∧
    (st.replace_label l v).comment_only = st.comment_only ∧
    (st.replace_label l v).operation = st.operation ∧
    (st.replace_label l v).label = st.label ∧
    (st.replace_label l v).operands = st.operands ∧
    (st.replace_label l v).mnemonic = st.mnemonic ∧
    (st.replace_label l v).op_code = st.op_code ∧
    (st.replace_label l v).address = st.address := by
  exact ⟨rfl, rfl, rfl, rfl, rfl, rfl, rfl, rfl⟩

theorem is_pseudo_op_congr {st st' : Statement} (h : st'.mnemonic = st.mnemonic) :
    st'.is_pseudo_op = st.is_pseudo_op := by
  simp [Statement.is_pseudo_op, h]

/-- When the table only holds `.addr` values (as it does after pass 3), the
substitution fold of pass 4 succeeds and touches only the three slot
fields. -/
theorem replace_all_labels_addr_ok (tab : SymTab) (st : Statement)
    (htab : ∀ p ∈ tab, ∃ a, p.2 = SymVal.addr a) :
    ∃ st1, replace_all_labels tab st = .ok st1 ∧
      st1.empty = st.empty ∧ st1.comment_only = st.comment_only ∧
      st1.operation = st.operation ∧ st1.label = st.label ∧
      st1.operands = st.operands ∧ st1.mnemonic = st.mnemonic ∧
      st1.op_code = st.op_code ∧ st1.address = st.address := by
  induction tab generalizing st with
  | nil =>
    exact ⟨st, rfl, rfl, rfl, rfl, rfl, rfl, rfl, rfl, rfl⟩
  | cons p rest ih =>
    obtain ⟨a, ha⟩ := htab p (by simp)
    obtain ⟨st1, h1, hs⟩ :=
      ih (st.replace_label p.1 (strDrop a 2)) (fun q hq => htab q (by simp [hq]))
    refine ⟨st1, ?_, ?_⟩
    · simpa [replace_all_labels, foldME, ha, symValSlice, Except.bind] using h1
    · simpa [Statement.replace_label] using hs

theorem hexDigitVal_lt16 {c : Char} {v : Nat} (h : hexDigitVal c = some v) : v < 16 := by
  unfold hexDigitVal at h
  split at h
  · simp only [Option.some.injEq] at h
    omega
  · split at h <;> simp_all <;> omega

theorem hexDigitVal_ne_minus {c : Char} {v : Nat} (h : hexDigitVal c = some v) : c ≠ '-' := by
  rintro rfl
  rw [show hexDigitVal '-' = none from rfl] at h
  exact Option.noConfusion h

theorem hexDigitVal_ne_plus {c : Char} {v : Nat} (h : hexDigitVal c = some v) : c ≠ '+' := by
  rintro rfl
  rw [show hexDigitVal '+' = none from rfl] at h
  exact Option.noConfusion h

theorem hexDigitVal_ne_underscore {c : Char} {v : Nat} (h : hexDigitVal c = some v) :
    c ≠ '_' := by
  rintro rfl
  rw [show hexDigitVal '_' = none from rfl] at h
  exact Option.noConfusion h

/-- `int(d, 16)` on a single hex digit character. -/
theorem pyIntHex_single_digit {d : Char} {v : Nat} (h : hexDigitVal d = some v) :
    pyIntHex (String.mk [d]) = some (v : Int) := by
  have h1 := hexDigitVal_ne_minus h
  have h2 := hexDigitVal_ne_plus h
  have h3 := hexDigitVal_ne_underscore h
  simp [pyIntHex, pyIntHexCore, pySignStrip, pyPfxCheck, pyPfxStrip, pyHexDigitsVal,
    hexValGo, h, h1, h2, h3]

theorem natToHexDigits_small {v : Nat} (h : v < 16) :
    natToHexDigits v = [Nat.digitChar v] := by
  simp [natToHexDigits, natToHexAux, h]

/-- `hex(v)` for a single-digit value. -/
theorem pyHex_small {v : Nat} (h : v < 16) :
    pyHex (v : Int) = String.mk ['0', 'x', Nat.digitChar v] := by
  have h0 : ¬ ((v : Int) < 0) := by omega
  simp [pyHex, h0, natToHexDigits_small h]

/-- `Statement.get_register` on a well-shaped register token returns the
uppercase hex digit of the register number. -/
theorem get_register_ok {r d : Char} {v : Nat} {s : String}
    (hs : s.data = [r, d]) (hr : r = 'r' ∨ r = 'R')
    (hd : hexDigitVal d = some v) :
    Statement.get_register s = .ok (String.mk [(Nat.digitChar v).toUpper]) := by
  have hreg : Statement.is_register s = true := by
    rcases hr with hr | hr <;> simp [Statement.is_register, hs, hr, hd]
  have hlen : ¬ pyLen s > 2 := by simp [pyLen, hs]
  have hdrop : strDrop s 1 = String.mk [d] := by simp [strDrop, hs]
  have hint : pyIntHex (strDrop s 1) = some (v : Int) := by
    rw [hdrop]; exact pyIntHex_single_digit hd
  have hhex : pyHex (v : Int) = String.mk ['0', 'x', Nat.digitChar v] :=
    pyHex_small (hexDigitVal_lt16 hd)
  simp [Statement.get_register, hreg, hlen, hint, hhex, strLast]

/-- `Statement.get_register` rejects every token that is not of the claimed
lexical shape with a `TranslationError`. -/
theorem get_register_err {s : String} (h : claimRegToken s = false) :
    ∃ msg, Statement.get_register s = .error (.translation msg) := by
  by_cases hreg : Statement.is_register s = true
  · rcases hd : s.data with _ | ⟨r, _ | ⟨d, rest⟩⟩ <;>
      simp [Statement.is_register, hd] at hreg
    obtain ⟨⟨hr, hdig⟩, hrest⟩ := hreg
    rcases hrest with hrest | hrest
    · exfalso
      rw [hrest] at hd
      rcases hr with hr | hr <;> simp [claimRegToken, hd, hr, hdig] at h
    · refine ⟨"invalid register [" ++ s ++ "]", ?_⟩
      have hlen : pyLen s > 2 := by simp [pyLen, hd, hrest]
      have hreg' : Statement.is_register s = true := by
        rcases hr with hr | hr <;> simp [Statement.is_register, hd, hr, hdig, hrest]
      simp [Statement.get_register, hreg', hlen]
  · exact ⟨"expected register in r0-rF, but got [" ++ s ++ "]",
      by simp [Statement.get_register, hreg]⟩

theorem get_label_congr {st st' : Statement} (h : st'.label = st.label) :
    st'.get_label = st.get_label := by
  simp [Statement.get_label, h]

theorem str_data_ext {a b : String} (h : a.data = b.data) : a = b := by
  cases a; cases b; exact congrArg String.mk h

/-- Unfolded description of the four decomposition segments. -/
theorem tmplDecomp_eq (op : Operation) :
    tmplDecomp op = (op.op.data.takeWhile notPH,
      (((op.op.data.dropWhile notPH).drop op.source).takeWhile notPH),
      (((((op.op.data.dropWhile notPH).drop op.source).dropWhile notPH).drop
        op.target).takeWhile notPH),
      (((((((op.op.data.dropWhile notPH).drop op.source).dropWhile notPH).drop
        op.target).dropWhile notPH).drop op.numeric))) := rfl

/-- Successful pass-4 encoding of a real instruction: with single
placeholder-free slot characters and a numeric value no wider than the
declared width, `fix_values` yields exactly the positionally substituted
opcode of the claim. -/
theorem fix_values_real_ok (st : Statement) (op : Operation)
    (hco : st.comment_only = false) (hps : st.is_pseudo_op = false)
    (hop : st.operation = some op) (hok : templateOK op = true)
    (hsrc : op.source = 1 → ∃ c, st.source = some (String.mk [c]) ∧ notPH c = true)
    (htgt : op.target = 1 → ∃ c, st.target = some (String.mk [c]) ∧ notPH c = true)
    (hnum : op.numeric ≠ 0 → ∃ nv, st.numeric = some nv ∧ pyLen nv ≤ op.numeric) :
    st.fix_values = .ok { st with op_code := some (spec_substituted_opcode op
      (st.source.getD "") (st.target.getD "") (st.numeric.getD "")) } := by
  have hok' := hok
  unfold templateOK at hok'
  simp only [Bool.and_eq_true, decide_eq_true_eq, List.all_eq_true] at hok'
  obtain ⟨⟨⟨⟨⟨hglue, hD⟩, hlen4⟩, hsle⟩, htle⟩, hnle⟩ := hok'
  have hAw : ∀ x ∈ (tmplDecomp op).1, notPH x = true := by
    intro x hx
    rw [tmplDecomp_eq] at hx
    exact List.mem_takeWhile_imp hx
  have hBw : ∀ x ∈ (tmplDecomp op).2.1, notPH x = true := by
    intro x hx
    rw [tmplDecomp_eq] at hx
    exact List.mem_takeWhile_imp hx
  have hCw : ∀ x ∈ (tmplDecomp op).2.2.1, notPH x = true := by
    intro x hx
    rw [tmplDecomp_eq] at hx
    exact List.mem_takeWhile_imp hx
  set A := (tmplDecomp op).1 with hA0
  set B := (tmplDecomp op).2.1 with hB0
  set C := (tmplDecomp op).2.2.1 with hC0
  set D := (tmplDecomp op).2.2.2 with hD0
  -- the source character (or a dummy when the slot is undeclared)
  obtain ⟨sc, hsc, hscn⟩ : ∃ sc, (op.source = 1 → st.source = some (String.mk [sc])) ∧
      (op.source = 1 → notPH sc = true) := by
    by_cases h1 : op.source = 1
    · obtain ⟨c, hc1, hc2⟩ := hsrc h1
      exact ⟨c, fun _ => hc1, fun _ => hc2⟩
    · exact ⟨'0', fun h => absurd h h1, fun h => absurd h h1⟩
  obtain ⟨tc, htc, htcn⟩ : ∃ tc, (op.target = 1 → st.target = some (String.mk [tc])) ∧
      (op.target = 1 → notPH tc = true) := by
    by_cases h1 : op.target = 1
    · obtain ⟨c, hc1, hc2⟩ := htgt h1
      exact ⟨c, fun _ => hc1, fun _ => hc2⟩
    · exact ⟨'0', fun h => absurd h h1, fun h => absurd h h1⟩
  -- cleanliness of the glued template for each placeholder character
  have hYs : ∀ x ∈ B ++ (List.replicate op.target 't' ++
      (C ++ (List.replicate op.numeric 'n' ++ D))), x ≠ 's' := by
    intro x hx
    simp only [List.mem_append, List.mem_replicate] at hx
    rcases hx with hx | hx | hx | hx | hx
    · exact (notPH_spec (hBw x hx)).1
    · rw [hx.2]; decide
    · exact (notPH_spec (hCw x hx)).1
    · rw [hx.2]; decide
    · exact (notPH_spec (hD x hx)).1
  have hXt : ∀ x ∈ A ++ List.replicate op.source sc ++ B, x ≠ 't' := by
    intro x hx
    simp only [List.mem_append, List.mem_replicate] at hx
    rcases hx with (hx | hx) | hx
    · exact (notPH_spec (hAw x hx)).2.1
    · rw [hx.2]; exact (notPH_spec (hscn (by omega))).2.1
    · exact (notPH_spec (hBw x hx)).2.1
  have hYt : ∀ x ∈ C ++ (List.replicate op.numeric 'n' ++ D), x ≠ 't' := by
    intro x hx
    simp only [List.mem_append, List.mem_replicate] at hx
    rcases hx with hx | hx | hx
    · exact (notPH_spec (hCw x hx)).2.1
    · rw [hx.2]; decide
    · exact (notPH_spec (hD x hx)).2.1
  have hXn : 'n' ∉ A ++ List.replicate op.source sc ++ B ++
      List.replicate op.target tc ++ C := by
    intro hx
    simp only [List.mem_append, List.mem_replicate] at hx
    rcases hx with (((hx | hx) | hx) | hx) | hx
    · exact (notPH_spec (hAw _ hx)).2.2 rfl
    · exact (notPH_spec (hscn (by omega))).2.2 hx.2.symm
    · exact (notPH_spec (hBw _ hx)).2.2 rfl
    · exact (notPH_spec (htcn (by omega))).2.2 hx.2.symm
    · exact (notPH_spec (hCw _ hx)).2.2 rfl
  have hDn : 'n' ∉ D := fun hx => (notPH_spec (hD _ hx)).2.2 rfl
  -- stage 1: the source substitution, uniformly in op.source ∈ {0, 1}
  have hcode1 : (if op.source = 1 then pyReplace op.op "s" (String.mk [sc])
      else op.op).data =
      A ++ (List.replicate op.source sc ++ (B ++ (List.replicate op.target 't' ++
        (C ++ (List.replicate op.numeric 'n' ++ D))))) := by
    by_cases h1 : op.source = 1
    · rw [if_pos h1, show ("s" : String) = String.mk ['s'] from rfl,
        pyReplace_single op.op 's' sc]
      show (op.op.data.map fun c => if c = 's' then sc else c) = _
      rw [← hglue, h1]
      simp only [List.append_assoc]
      rw [map_subst_once 's' sc A _ 1 (fun x hx => (notPH_spec (hAw x hx)).1) hYs]
    · rw [if_neg h1, ← hglue, show op.source = 0 by omega]
      simp [List.append_assoc]
  -- stage 2: the target substitution, uniformly in op.target ∈ {0, 1}
  have hcode2 : ∀ (cd1 : String), cd1.data =
      A ++ (List.replicate op.source sc ++ (B ++ (List.replicate op.target 't' ++
        (C ++ (List.replicate op.numeric 'n' ++ D))))) →
      (if op.target = 1 then pyReplace cd1 "t" (String.mk [tc]) else cd1).data =
      A ++ List.replicate op.source sc ++ B ++ List.replicate op.target tc ++ C ++
        List.replicate op.numeric 'n' ++ D := by
    intro cd1 hl
    by_cases h1 : op.target = 1
    · rw [if_pos h1, show ("t" : String) = String.mk ['t'] from rfl,
        pyReplace_single cd1 't' tc]
      show (cd1.data.map fun c => if c = 't' then tc else c) = _
      rw [hl]
      rw [show A ++ (List.replicate op.source sc ++ (B ++ (List.replicate op.target 't' ++
          (C ++ (List.replicate op.numeric 'n' ++ D))))) =
        (A ++ List.replicate op.source sc ++ B) ++ (List.replicate op.target 't' ++
          (C ++ (List.replicate op.numeric 'n' ++ D))) by simp [List.append_assoc]]
      rw [map_subst_once 't' tc _ _ op.target hXt hYt]
      simp [List.append_assoc]
    · rw [if_neg h1, hl, show op.target = 0 by omega]
      simp [List.append_assoc]
  -- stage 3: the numeric-run substitution
  have hcode3 : ∀ (cd2 : String) (nv : String), cd2.data =
      A ++ List.replicate op.source sc ++ B ++ List.replicate op.target tc ++ C ++
        List.replicate op.numeric 'n' ++ D →
      op.numeric ≠ 0 →
      (pyReplace cd2 (String.mk (List.replicate op.numeric 'n'))
        (pyZfill nv op.numeric)).data =
      A ++ List.replicate op.source sc ++ B ++ List.replicate op.target tc ++ C ++
        (pyZfill nv op.numeric).data ++ D := by
    intro cd2 nv hl hn0
    show (replaceAux (cd2.data.length + 1) (List.replicate op.numeric 'n')
      (pyZfill nv op.numeric).data cd2.data) = _
    rw [hl]
    rw [show A ++ List.replicate op.source sc ++ B ++ List.replicate op.target tc ++ C ++
        List.replicate op.numeric 'n' ++ D =
      (A ++ List.replicate op.source sc ++ B ++ List.replicate op.target tc ++ C) ++
        List.replicate op.numeric 'n' ++ D by simp [List.append_assoc]]
    rw [replaceAux_run op.numeric (by omega) (pyZfill nv op.numeric).data _ D _
      (by simp [List.append_assoc]; try omega) hXn hDn]
    try simp [List.append_assoc]
  -- now evaluate `fix_values` itself
  unfold Statement.fix_values
  simp only [hco, Bool.false_eq_true, if_false, hps, hop]
  have hs_len : ¬ pyLen (String.mk [sc]) > 1 := by simp [pyLen]
  have ht_len : ¬ pyLen (String.mk [tc]) > 1 := by simp [pyLen]
  by_cases h1 : op.source = 1 <;> by_cases h2 : op.target = 1 <;>
    by_cases h3 : op.numeric = 0
  -- reduce the source stage in every branch
  all_goals (
    first
    | (rw [if_pos h1, hsc h1]
       try simp only [hs_len, if_false, exc_pure, exc_bind_ok])
    | (rw [if_neg h1]
       try simp only [exc_pure, exc_bind_ok]))
  -- reduce the target stage in every branch
  all_goals (
    first
    | (rw [if_pos h2, htc h2]
       try simp only [ht_len, if_false, exc_pure, exc_bind_ok])
    | (rw [if_neg h2]
       try simp only [exc_pure, exc_bind_ok]))
  -- reduce the numeric stage in every branch
  all_goals (
    first
    | (rw [if_neg (show ¬ op.numeric ≠ 0 by omega)]
       try simp only [exc_pure])
    | (obtain ⟨nv, hnv, hnvle⟩ := hnum h3
       rw [if_pos h3, hnv]
       try simp only [show ¬ pyLen nv > op.numeric by omega, if_false, exc_pure]))
  -- close each branch from the staged list equalities
  all_goals (
    simp only [Except.ok.injEq, Statement.mk.injEq, Option.some.injEq, and_true,
      true_and, eq_self_iff_true]
    apply str_data_ext)
  · -- source and target present, numeric absent
    have hc1 := hcode1
    rw [if_pos h1] at hc1
    have hc2 := hcode2 _ hc1
    rw [if_pos h2] at hc2
    rw [hc2]
    simp [spec_substituted_opcode, h3, h1, h2, hsc h1, htc h2, List.append_assoc]
  · -- all three slots present
    have hc1 := hcode1
    rw [if_pos h1] at hc1
    have hc2 := hcode2 _ hc1
    rw [if_pos h2] at hc2
    have hc3 := hcode3 _ nv hc2 h3
    rw [hc3]
    simp [spec_substituted_opcode, h3, h1, h2, hsc h1, htc h2, hnv, List.append_assoc]
  · -- source present, target and numeric absent
    have hc1 := hcode1
    rw [if_pos h1] at hc1
    have hc2 := hcode2 _ hc1
    rw [if_neg h2] at hc2
    rw [hc2]
    simp [spec_substituted_opcode, h3, h1, hsc h1, show op.target = 0 by omega,
      List.append_assoc]
  · -- source and numeric present
    have hc1 := hcode1
    rw [if_pos h1] at hc1
    have hc2 := hcode2 _ hc1
    rw [if_neg h2] at hc2
    have hc3 := hcode3 _ nv hc2 h3
    rw [hc3]
    simp [spec_substituted_opcode, h3, h1, hsc h1, hnv, show op.target = 0 by omega,
      List.append_assoc]
  · -- target present, source and numeric absent
    have hc1 := hcode1
    rw [if_neg h1] at hc1
    have hc2 := hcode2 _ hc1
    rw [if_pos h2] at hc2
    rw [hc2]
    simp [spec_substituted_opcode, h3, h2, htc h2, show op.source = 0 by omega,
      List.append_assoc]
  · -- target and numeric present
    have hc1 := hcode1
    rw [if_neg h1] at hc1
    have hc2 := hcode2 _ hc1
    rw [if_pos h2] at hc2
    have hc3 := hcode3 _ nv hc2 h3
    rw [hc3]
    simp [spec_substituted_opcode, h3, h2, htc h2, hnv, show op.source = 0 by omega,
      List.append_assoc]
  · -- source, target, numeric all absent
    have hc1 := hcode1
    rw [if_neg h1] at hc1
    have hc2 := hcode2 _ hc1
    rw [if_neg h2] at hc2
    rw [hc2]
    simp [spec_substituted_opcode, h3, show op.source = 0 by omega,
      show op.target = 0 by omega]
  · -- numeric present only
    have hc1 := hcode1
    rw [if_neg h1] at hc1
    have hc2 := hcode2 _ hc1
    rw [if_neg h2] at hc2
    have hc3 := hcode3 _ nv hc2 h3
    rw [hc3]
    simp [spec_substituted_opcode, h3, hnv, show op.source = 0 by omega,
      show op.target = 0 by omega, List.append_assoc]

/-- Splitting on `,` yields a single token exactly when no comma occurs. -/
theorem splitCommaAux_no_comma (cs acc : List Char) (h : ',' ∉ cs) :
    (splitCommaAux cs acc).length = 1 := by
  induction cs generalizing acc with
  | nil => simp [splitCommaAux]
  | cons c cs ih =>
    rw [List.mem_cons] at h
    push_neg at h
    have hc : c ≠ ',' := fun hc => h.1 hc.symm
    have hc2 : ¬ c = ',' := fun hcc => h.1 hcc.symm
    rw [show splitCommaAux (c :: cs) acc =
      splitCommaAux cs (c :: acc) by simp [splitCommaAux, hc2]]
    exact ih _ h.2

/-- A comma anywhere in the digit run makes `int(_, 16)` fail. -/
theorem hexValGo_comma {cs : List Char} (h : ',' ∈ cs) (acc : Nat) :
    hexValGo cs acc = none := by
  induction cs generalizing acc with
  | nil => cases h
  | cons c cs ih =>
    rw [List.mem_cons] at h
    by_cases hc : c = ','
    · subst hc
      unfold hexValGo
      rw [show hexDigitVal ',' = none from rfl]
      simp
    · have h' : ',' ∈ cs := by
        rcases h with h | h
        · exact absurd h.symm hc
        · exact h
      unfold hexValGo
      cases hd : hexDigitVal c with
      | some v => simp only [hd]; exact ih h' _
      | none =>
        simp only [hd]
        split
        · exact ih h' _
        · rfl

/-- The sign strip keeps a comma. -/
theorem pySignStrip_comma {cs : List Char} (h : ',' ∈ cs) : ',' ∈ pySignStrip cs := by
  unfold pySignStrip
  split
  next hsign =>
    cases cs with
    | nil => cases h
    | cons c cs' =>
      simp only [List.head?_cons, Option.some.injEq] at hsign
      simp only [List.tail_cons]
      have hcne : c ≠ ',' := by
        rcases Bool.or_eq_true_iff.mp hsign with h1 | h1 <;>
          simp only [decide_eq_true_eq] at h1 <;> subst h1 <;> decide
      rcases List.mem_cons.mp h with h1 | h1
      · exact absurd h1.symm hcne
      · exact h1
  next => exact h

/-- The base-marker strip keeps a comma. -/
theorem pyPfxStrip_comma {cs : List Char} (h : ',' ∈ cs) : ',' ∈ pyPfxStrip cs := by
  unfold pyPfxStrip
  split
  next hpfx =>
    have hsplit := List.take_append_drop 2 cs
    rcases List.mem_append.mp (hsplit ▸ h) with h1 | h1
    · exfalso
      unfold pyPfxCheck at hpfx
      rcases Bool.or_eq_true_iff.mp hpfx with h2 | h2 <;>
        simp only [decide_eq_true_eq] at h2 <;> rw [h2] at h1 <;> simp at h1
    · exact h1
  next => exact h

/-- A comma in a digit run makes `pyHexDigitsVal` fail. -/
theorem pyHexDigitsVal_comma {cs : List Char} (h : ',' ∈ cs) (b : Bool) :
    pyHexDigitsVal b cs = none := by
  cases cs with
  | nil => cases h
  | cons c cs' =>
    have hgo := hexValGo_comma h 0
    simp [pyHexDigitsVal, hgo]

/-- A comma anywhere in the string makes `int(s, 16)` raise `ValueError`. -/
theorem pyIntHex_comma {s : String} (h : ',' ∈ s.data) : pyIntHex s = none := by
  unfold pyIntHex pyIntHexCore
  rw [pyHexDigitsVal_comma (pyPfxStrip_comma (pySignStrip_comma h))]

/-- A successful `translate` never changes the descriptive fields of a
statement, only `operation` and the three slots. -/
theorem translate_ok_fields {st st' : Statement} (h : st.translate = .ok st') :
    st'.label = st.label ∧ st'.mnemonic = st.mnemonic ∧ st'.operands = st.operands ∧
    st'.comment_only = st.comment_only ∧ st'.empty = st.empty ∧
    st'.address = st.address ∧ st'.op_code = st.op_code := by
  unfold Statement.translate at h
  by_cases hco : st.comment_only = true
  · simp only [hco, if_true] at h
    cases h; exact ⟨rfl, rfl, rfl, rfl, rfl, rfl, rfl⟩
  simp only [hco, if_false, Bool.false_eq_true] at h
  by_cases hps : st.is_pseudo_op = true
  · simp only [hps, if_true] at h
    by_cases ht : pyTruthy st.operands = true
    · simp only [ht, if_true] at h
      cases h; exact ⟨rfl, rfl, rfl, rfl, rfl, rfl, rfl⟩
    · simp [ht] at h
  simp only [hps, if_false, Bool.false_eq_true] at h
  cases hf : OPERATIONS.find? (fun o => some o.mnemonic = st.mnemonic) with
  | none =>
    simp only [hf] at h
    cases hop : st.operation with
    | none => simp [hop] at h
    | some op =>
      simp only [hop] at h
      by_cases hlen : (Statement.operand_tokens st.operands).length = op.operands
      · simp only [hlen, ne_eq, not_true_eq_false, if_false] at h
        cases hc : Statement.consume_slots op (Statement.operand_tokens st.operands) with
        | error e => simp [hc] at h
        | ok slots =>
          obtain ⟨src, tgt, num⟩ := slots
          simp only [hc] at h
          cases h
          exact ⟨rfl, rfl, rfl, rfl, rfl, rfl, rfl⟩
      · simp [hlen] at h
  | some o =>
    simp only [hf] at h
    by_cases hlen : (Statement.operand_tokens st.operands).length = o.operands
    · simp only [hlen, ne_eq, not_true_eq_false, if_false] at h
      cases hc : Statement.consume_slots o (Statement.operand_tokens st.operands) with
      | error e => simp [hc] at h
      | ok slots =>
        obtain ⟨src, tgt, num⟩ := slots
        simp only [hc] at h
        cases h
        refine ⟨rfl, rfl, rfl, ?_, rfl, rfl, rfl⟩
        first
        | rfl
        | exact ((Bool.not_eq_true _).mp hco).symm
    · simp [hlen] at h

theorem symTabContains_set_self (tab : SymTab) (k : String) (v : SymVal) :
    symTabContains (symTabSet tab k v) k = true := by
  unfold symTabSet
  by_cases h : symTabContains tab k = true
  · rw [if_pos h]
    unfold symTabContains at h ⊢
    obtain ⟨p, hp, hpk⟩ := List.any_eq_true.mp h
    exact List.any_eq_true.mpr ⟨(k, v), List.mem_map.mpr ⟨p, hp, by simp_all⟩, by simp⟩
  · rw [if_neg h]
    unfold symTabContains
    exact List.any_eq_true.mpr ⟨(k, v), by simp, by simp⟩

theorem symTabContains_set_mono {tab : SymTab} {x : String}
    (h : symTabContains tab x = true) (k : String) (v : SymVal) :
    symTabContains (symTabSet tab k v) x = true := by
  unfold symTabSet
  by_cases hk : symTabContains tab k = true
  · rw [if_pos hk]
    unfold symTabContains at h ⊢
    obtain ⟨p, hp, hpx⟩ := List.any_eq_true.mp h
    by_cases hpk : p.1 = k
    · refine List.any_eq_true.mpr ⟨(k, v), List.mem_map.mpr ⟨p, hp, by simp [hpk]⟩, ?_⟩
      simp only [decide_eq_true_eq] at hpx ⊢
      rw [← hpk, hpx]
    · exact List.any_eq_true.mpr ⟨p, List.mem_map.mpr ⟨p, hp, by simp [hpk]⟩, hpx⟩
  · rw [if_neg hk]
    unfold symTabContains at h ⊢
    obtain ⟨p, hp, hpx⟩ := List.any_eq_true.mp h
    exact List.any_eq_true.mpr ⟨p, by simp [hp], hpx⟩

/-- Pass 2 aborts with the `redefined` error whenever the statement list
contains two statements with the same non-empty label, or a statement whose
label is already seeded in the table. -/
theorem translate_statements_go_dup :
    ∀ (stmts : List Statement) (k : Nat) (tab : SymTab),
    (∀ st ∈ stmts, ∃ st', st.translate = .ok st') →
    ((∃ i j sti stj, i < j ∧ stmts.get? i = some sti ∧ stmts.get? j = some stj ∧
        sti.get_label ≠ "" ∧ sti.get_label = stj.get_label) ∨
     (∃ i sti, stmts.get? i = some sti ∧ sti.get_label ≠ "" ∧
        symTabContains tab sti.get_label = true)) →
    ∃ L, translate_statements_go stmts k tab =
      .error (.translation ("label [" ++ L ++ "] redefined")) := by
  intro stmts
  induction stmts with
  | nil =>
    intro k tab htr hdup
    exfalso
    rcases hdup with ⟨i, j, sti, stj, hij, hgi, hgj, _⟩ | ⟨i, sti, hgi, _⟩ <;>
      simp at hgi
  | cons st rest ih =>
    intro k tab htr hdup
    obtain ⟨st', hst'⟩ := htr st (by simp)
    have hfields := translate_ok_fields hst'
    have hlbl : st'.get_label = st.get_label := get_label_congr hfields.1
    by_cases hl : st.get_label = ""
    · -- head has no label: the duplicate lives entirely in the tail
      have hdup' : (∃ i j sti stj, i < j ∧ rest.get? i = some sti ∧
            rest.get? j = some stj ∧ sti.get_label ≠ "" ∧
            sti.get_label = stj.get_label) ∨
          (∃ i sti, rest.get? i = some sti ∧ sti.get_label ≠ "" ∧
            symTabContains tab sti.get_label = true) := by
        rcases hdup with ⟨i, j, sti, stj, hij, hgi, hgj, hne, heq⟩ | ⟨i, sti, hgi, hne, hcont⟩
        · left
          cases i with
          | zero =>
            exfalso
            simp only [List.get?_cons_zero, Option.some.injEq] at hgi
            exact hne (hgi ▸ hl)
          | succ i' =>
            cases j with
            | zero => omega
            | succ j' =>
              exact ⟨i', j', sti, stj, by omega, by simpa using hgi, by simpa using hgj,
                hne, heq⟩
        · right
          cases i with
          | zero =>
            exfalso
            simp only [List.get?_cons_zero, Option.some.injEq] at hgi
            exact hne (hgi ▸ hl)
          | succ i' =>
            exact ⟨i', sti, by simpa using hgi, hne, hcont⟩
      obtain ⟨L, hL⟩ := ih (k + 1) tab (fun s hs => htr s (by simp [hs])) hdup'
      refine ⟨L, ?_⟩
      simp [translate_statements_go, hst', exc_bind_ok, hlbl, hl, hL, exc_bind_err]
    · by_cases hc : symTabContains tab st.get_label = true
      · refine ⟨st.get_label, ?_⟩
        simp [translate_statements_go, hst', exc_bind_ok, hlbl, hl, hc]
      · -- head's label is new: seed it and recurse
        have hdup' : (∃ i j sti stj, i < j ∧ rest.get? i = some sti ∧
              rest.get? j = some stj ∧ sti.get_label ≠ "" ∧
              sti.get_label = stj.get_label) ∨
            (∃ i sti, rest.get? i = some sti ∧ sti.get_label ≠ "" ∧
              symTabContains (symTabSet tab st.get_label (.idx k)) sti.get_label = true) := by
          rcases hdup with ⟨i, j, sti, stj, hij, hgi, hgj, hne, heq⟩ | ⟨i, sti, hgi, hne, hcont⟩
          · cases i with
            | zero =>
              right
              simp only [List.get?_cons_zero, Option.some.injEq] at hgi
              cases j with
              | zero => omega
              | succ j' =>
                subst hgi
                refine ⟨j', stj, by simpa using hgj, ?_, ?_⟩
                · rw [← heq]; exact hne
                · rw [← heq]
                  exact symTabContains_set_self tab st.get_label (.idx k)
            | succ i' =>
              left
              cases j with
              | zero => omega
              | succ j' =>
                exact ⟨i', j', sti, stj, by omega, by simpa using hgi, by simpa using hgj,
                  hne, heq⟩
          · cases i with
            | zero =>
              exfalso
              simp only [List.get?_cons_zero, Option.some.injEq] at hgi
              subst hgi
              exact hc hcont
            | succ i' =>
              right
              exact ⟨i', sti, by simpa using hgi, hne,
                symTabContains_set_mono hcont st.get_label (.idx k)⟩
        obtain ⟨L, hL⟩ :=
          ih (k + 1) (symTabSet tab st.get_label (.idx k))
            (fun s hs => htr s (by simp [hs])) hdup'
        refine ⟨L, ?_⟩
        simp [translate_statements_go, hst', exc_bind_ok, hlbl, hl, hc, hL, exc_bind_err]

/-! ## Concrete scenario claims -/

/-- **C10**: the three concrete end-to-end scenarios of the spec hold:
`"label   JUMP   label   "` as first statement gives symbol-table entry
`label = 0x200`, numeric slot `200` and opcode `1200`;
`"   SKRNE  r1,r2  "` resolves to template `9st0` and opcode `9120`;
`"    CLR        "` as first statement gives opcode `00E0` at address
`0x200`, emitting the two bytes `00 E0`. -/
theorem c10_concrete_scenarios :
    (assemble ["label   JUMP   label   "]).toOption.map
        (fun r => (r.symbol_table, r.statements.map (fun s => (s.numeric, s.op_code)))) =
      some ([("label", SymVal.addr "0x200")], [(some "200", some "1200")]) ∧
    (assemble ["   SKRNE  r1,r2  "]).toOption.map
        (fun r => r.statements.map (fun s => (s.operation.map (·.op), s.op_code))) =
      some [(some "9st0", some "9120")] ∧
    (assemble ["    CLR        "]).toOption.map
        (fun r => r.statements.map (fun s => (s.address, s.op_code))) =
      some [(some "0x200", some "00E0")] ∧
    outputBytes ["    CLR        "] = .ok [0x00, 0xE0] := by
  refine ⟨by decide, by decide, by decide, by decide⟩

/-- **C1**: evaluation of the code at the spec's own scenario
`"   FCB   $AB   "`: pass 3 stamps the statement at `0x200` but advances the
running address counter to `0x202` — by 2, not by the claimed 1 — because
`Program.set_addresses` compares `statement.operation` (which is `None` for
every pseudo-op, since `Statement.translate` returns before assigning it)
with the string `"FCB"`, a comparison that is false for every statement.
The emitted data is nevertheless the single byte `0xAB`. -/
theorem c1_fcb_address_advance_is_two :
    (assemble ["   FCB   $AB   "]).toOption.map
        (fun r => (r.address, r.statements.map (fun s => (s.address, s.operation)))) =
      some (0x202, [(some "0x200", none)]) ∧
    outputBytes ["   FCB   $AB   "] = .ok [0xAB] ∧
    (0x202 : Nat) = 0x200 + 2 := by
  refine ⟨by decide, by decide, by decide⟩

/-- **C2**, counterexample: the one-statement program `"   FDB   $A   "`
completes all four passes, the spec-side sum over its statements is 2
(an `FDB` statement is not the single-byte pseudo-op), yet the assembler
emits a single byte (`0x0A`): `Statement.fix_values` copies the normalized
hex digits of the literal into `op_code` without padding, so a two-byte
pseudo-op with a small literal emits one byte. -/
theorem c2_output_length_counterexample :
    (assemble ["   FDB   $A   "]).toOption.map (fun r => claimLengthSum r.statements) =
      some 2 ∧
    outputBytes ["   FDB   $A   "] = .ok [0x0A] ∧
    ([(0x0A : Nat)].length = 1) ∧ (1 : Nat) ≠ 2 := by
  refine ⟨by decide, by decide, by decide, by decide⟩

/-- **C3**, counterexample: in the valid three-statement program
`A CLR` / `JUMP A` / `200 CLR` every label is defined exactly once and all
four passes succeed, but the statement whose numeric slot references `A`
(defined at `0x200`) is encoded as `1204`, not `1200`: pass 4 substitutes
the symbols in table order, so the slot first becomes `A ↦ "200"` and is
then rewritten by the unrelated label named `200` to that label's address
`"204"`. -/
theorem c3_label_resolution_counterexample :
    ((parse_lines ["A   CLR   ", "   JUMP   A   ", "200   CLR   "]).bind
        translate_statements).toOption.map (fun p => p.1.map (·.numeric)) =
      some [none, some "A", none] ∧
    (assemble ["A   CLR   ", "   JUMP   A   ", "200   CLR   "]).toOption.map
        (fun r => r.statements.map (fun s => (s.label, s.address, s.numeric, s.op_code))) =
      some [(some "A", some "0x200", none, some "00E0"),
            (none, some "0x202", some "204", some "1204"),
            (some "200", some "0x204", none, some "00E0")] ∧
    ("204" : String) ≠ "200" := by
  refine ⟨by decide, by decide, by decide⟩

/-- **C8**, counterexample: the pseudo-op statement `"   FCB   $AB,$CD   "`
carries two comma-separated operand tokens; `Statement.translate` accepts it
(it only checks that the operand string is non-empty), and in pass 4
`Statement.get_value` calls `int("AB,$CD", 16)`, which raises an uncaught
`ValueError` — not a `TranslationError`. -/
theorem c8_pseudo_multi_token_counterexample :
    assemble ["   FCB   $AB,$CD   "] =
      .error (.valueFault "invalid literal for int() with base 16: AB,$CD") := by
  decide

/-- **C7**: for a real-instruction statement reaching pass 4,
`Statement.fix_values` replaces the template's source placeholder with the
1-hex-digit source value (failing with a `TranslationError` when the source
value is wider than one digit), replaces the target placeholder identically,
and replaces the numeric placeholder run with the numeric value left-padded
with zeros to exactly the declared width, failing with a `TranslationError`
whenever the numeric value has more digits than the declared width. -/
theorem c7_fix_values_encoding (st : Statement) (op : Operation)
    (hco : st.comment_only = false) (hps : st.is_pseudo_op = false)
    (hop : st.operation = some op) (hmem : op ∈ OPERATIONS) :
    (∀ sv, op.source = 1 → st.source = some sv → pyLen sv > 1 →
      st.fix_values = .error (.translation ("expected source in 0-F, but got " ++ sv))) ∧
    (∀ tv, op.target = 1 → st.target = some tv → pyLen tv > 1 →
      (op.source = 1 → ∃ sv, st.source = some sv ∧ pyLen sv ≤ 1) →
      st.fix_values = .error (.translation ("expected target in 0-F, but got " ++ tv))) ∧
    (∀ nv, op.numeric ≠ 0 → st.numeric = some nv → pyLen nv > op.numeric →
      (op.source = 1 → ∃ sv, st.source = some sv ∧ pyLen sv ≤ 1) →
      (op.target = 1 → ∃ tv, st.target = some tv ∧ pyLen tv ≤ 1) →
      st.fix_values = .error (.translation
        ("expected numeric of length " ++ toString op.numeric ++ ", but was length " ++
          toString (pyLen nv) ++ " [" ++ nv ++ "]"))) ∧
    ((op.source = 1 → ∃ c, st.source = some (String.mk [c]) ∧ notPH c = true) →
      (op.target = 1 → ∃ c, st.target = some (String.mk [c]) ∧ notPH c = true) →
      (op.numeric ≠ 0 → ∃ nv, st.numeric = some nv ∧ pyLen nv ≤ op.numeric) →
      st.fix_values = .ok { st with op_code := some (spec_substituted_opcode op
        (st.source.getD "") (st.target.getD "") (st.numeric.getD "")) }) := by
  have hok : templateOK op = true := List.all_eq_true.mp all_templates_ok op hmem
  refine ⟨?_, ?_, ?_, ?_⟩
  · intro sv h1 hsv hlen
    unfold Statement.fix_values
    simp only [hco, Bool.false_eq_true, if_false, hps, hop]
    rw [if_pos h1, hsv]
    simp [hlen, exc_bind_err]
  · intro tv h2 htv hlen hsok
    unfold Statement.fix_values
    simp only [hco, Bool.false_eq_true, if_false, hps, hop]
    by_cases h1 : op.source = 1
    · obtain ⟨sv, hsv, hsvlen⟩ := hsok h1
      rw [if_pos h1, hsv]
      simp only [show ¬ pyLen sv > 1 by omega, if_false, exc_pure, exc_bind_ok]
      rw [if_pos h2, htv]
      simp [hlen, exc_bind_err]
    · rw [if_neg h1]
      simp only [exc_pure, exc_bind_ok]
      rw [if_pos h2, htv]
      simp [hlen, exc_bind_err]
  · intro nv h3 hnv hlen hsok htok
    unfold Statement.fix_values
    simp only [hco, Bool.false_eq_true, if_false, hps, hop]
    by_cases h1 : op.source = 1
    · obtain ⟨sv, hsv, hsvlen⟩ := hsok h1
      rw [if_pos h1, hsv]
      simp only [show ¬ pyLen sv > 1 by omega, if_false, exc_pure, exc_bind_ok]
      by_cases h2 : op.target = 1
      · obtain ⟨tv, htv, htvlen⟩ := htok h2
        rw [if_pos h2, htv]
        simp only [show ¬ pyLen tv > 1 by omega, if_false, exc_pure, exc_bind_ok]
        rw [if_pos h3, hnv]
        simp [hlen]
      · rw [if_neg h2]
        try simp only [exc_pure, exc_bind_ok]
        rw [if_pos h3, hnv]
        simp [hlen]
    · rw [if_neg h1]
      simp only [exc_pure, exc_bind_ok]
      by_cases h2 : op.target = 1
      · obtain ⟨tv, htv, htvlen⟩ := htok h2
        rw [if_pos h2, htv]
        simp only [show ¬ pyLen tv > 1 by omega, if_false, exc_pure, exc_bind_ok]
        rw [if_pos h3, hnv]
        simp [hlen]
      · rw [if_neg h2]
        try simp only [exc_pure, exc_bind_ok]
        rw [if_pos h3, hnv]
        simp [hlen]
  · intro hsrc htgt hnum
    exact fix_values_real_ok st op hco hps hop hok hsrc htgt hnum

/-- Witness for C7: a fully populated `DRAW` statement encodes to `D125`,
and a two-digit numeric value overflows the one-digit slot of `DRAW`. -/
theorem c7_fix_values_encoding_witness :
    ({ empty := false, mnemonic := some "DRAW",
       operation := some ⟨"DRAW", "Dstn", 3, 1, 1, 1⟩,
       source := some "1", target := some "2", numeric := some "5" } :
        Statement).fix_values =
      .ok { empty := false, mnemonic := some "DRAW",
            operation := some ⟨"DRAW", "Dstn", 3, 1, 1, 1⟩,
            source := some "1", target := some "2", numeric := some "5",
            op_code := some "D125" } ∧
    ({ empty := false, mnemonic := some "DRAW",
       operation := some ⟨"DRAW", "Dstn", 3, 1, 1, 1⟩,
       source := some "1", target := some "2", numeric := some "56" } :
        Statement).fix_values =
      .error (.translation "expected numeric of length 1, but was length 2 [56]") := by
  constructor
  · have h := (c7_fix_values_encoding
      { empty := false, mnemonic := some "DRAW",
        operation := some ⟨"DRAW", "Dstn", 3, 1, 1, 1⟩,
        source := some "1", target := some "2", numeric := some "5" }
      ⟨"DRAW", "Dstn", 3, 1, 1, 1⟩ rfl (by decide) rfl (by decide)).2.2.2
      (fun _ => ⟨'1', rfl, by decide⟩) (fun _ => ⟨'2', rfl, by decide⟩)
      (fun _ => ⟨"5", rfl, by decide⟩)
    exact h.trans (by decide)
  · have h := (c7_fix_values_encoding
      { empty := false, mnemonic := some "DRAW",
        operation := some ⟨"DRAW", "Dstn", 3, 1, 1, 1⟩,
        source := some "1", target := some "2", numeric := some "56" }
      ⟨"DRAW", "Dstn", 3, 1, 1, 1⟩ rfl (by decide) rfl (by decide)).2.2.1
      "56" (by decide) rfl (by decide)
      (fun _ => ⟨"1", rfl, by decide⟩) (fun _ => ⟨"2", rfl, by decide⟩)
    exact h.trans (by decide)

/-- **C8**, amended: for a pseudo-op statement `Statement.translate` rejects
only an absent (or empty) operand string, with a `TranslationError`; a
multi-token operand is accepted by `translate` and fails in pass 4 instead —
with an uncaught `ValueError` from `int(_, 16)` when it starts with `$`,
and with a `TranslationError` when it does not. -/
theorem c8_pseudo_operand_amended (st : Statement)
    (hco : st.comment_only = false) (hps : st.is_pseudo_op = true) :
    (pyTruthy st.operands = false →
      st.translate = .error (.translation
        ("pseudo operation [" ++ st.mnemonic.getD "" ++ "] requires 1 operand"))) ∧
    (pyTruthy st.operands = true → st.translate = .ok st) ∧
    (∀ s, st.operands = some s → (splitComma s).length > 1 →
      pyStartsWith s "$" = true →
      st.fix_values = .error (.valueFault
        ("invalid literal for int() with base 16: " ++ strDrop s 1))) ∧
    (∀ s, st.operands = some s → pyStartsWith s "$" = false →
      st.fix_values = .error (.translation
        ("expected value starting with $, but got " ++ s))) := by
  refine ⟨?_, ?_, ?_, ?_⟩
  · intro ht
    simp [Statement.translate, hco, hps, ht]
  · intro ht
    simp [Statement.translate, hco, hps, ht]
  · intro s hs hsplit hdollar
    have hcomma : ',' ∈ s.data := by
      by_contra hnc
      have : (splitCommaAux s.data []).length = 1 := splitCommaAux_no_comma _ _ hnc
      simp [splitComma, this] at hsplit
    obtain ⟨rest, hrest⟩ : ∃ rest, s.data = '$' :: rest := by
      unfold pyStartsWith at hdollar
      cases hsd : s.data with
      | nil => rw [hsd] at hdollar; simp [List.isPrefixOf] at hdollar
      | cons c cs =>
        rw [hsd] at hdollar
        simp [List.isPrefixOf] at hdollar
        exact ⟨cs, by rw [← hdollar]⟩
    have hcrest : ',' ∈ rest := by
      rw [hrest] at hcomma
      rcases List.mem_cons.mp hcomma with h | h
      · exact absurd h.symm (by decide)
      · exact h
    have hint : pyIntHex (strDrop s 1) = none := by
      have : (strDrop s 1).data = rest := by simp [strDrop, hrest]
      exact pyIntHex_comma (this ▸ hcrest)
    have hsd : pyStartsWith s "$" = true := hdollar
    simp [Statement.fix_values, hco, hps, hs, hsd, Statement.get_value, hint,
      show pyStartsWith s "$" = true from hdollar]
  · intro s hs hdollar
    simp [Statement.fix_values, hco, hps, hs, hdollar]

/-- Witness for C8 (amended): the pseudo-op statements with operand strings
absent, `"$AB,$CD"`, and `"AB"`. -/
theorem c8_pseudo_operand_amended_witness :
    ({ empty := false, mnemonic := some "FCB" } : Statement).translate =
      .error (.translation "pseudo operation [FCB] requires 1 operand") ∧
    ({ empty := false, mnemonic := some "FCB", operands := some "$AB,$CD" } :
        Statement).fix_values =
      .error (.valueFault "invalid literal for int() with base 16: AB,$CD") ∧
    ({ empty := false, mnemonic := some "FDB", operands := some "AB" } :
        Statement).fix_values =
      .error (.translation "expected value starting with $, but got AB") := by
  refine ⟨?_, ?_, ?_⟩
  · have h := (c8_pseudo_operand_amended
      { empty := false, mnemonic := some "FCB" } rfl (by decide)).1 (by decide)
    simpa using h
  · have h := (c8_pseudo_operand_amended
      { empty := false, mnemonic := some "FCB", operands := some "$AB,$CD" }
      rfl (by decide)).2.2.1 "$AB,$CD" rfl (by decide) (by decide)
    simpa using h
  · have h := (c8_pseudo_operand_amended
      { empty := false, mnemonic := some "FDB", operands := some "AB" }
      rfl (by decide)).2.2.2 "AB" rfl (by decide)
    simpa using h

/-- **C9**: pass-4 label substitution never applies to a pseudo-op's
operand: `Statement.translate` returns a pseudo-op statement unchanged (its
numeric slot is never populated), `Statement.replace_label` rewrites only
the source/target/numeric slot fields and leaves the raw operand string
alone, and therefore a pseudo-op whose operand is a bare label name (no `$`
prefix) fails pass 4 with a `TranslationError` even when that label is
defined in the symbol table. -/
theorem c9_pseudo_label_not_substituted
    (st : Statement) (tab : SymTab) (s : String)
    (hps : st.is_pseudo_op = true) (hco : st.comment_only = false)
    (hop : st.operands = some s) (hne : s ≠ "")
    (hnd : pyStartsWith s "$" = false)
    (htab : ∀ p ∈ tab, ∃ a, p.2 = SymVal.addr a) :
    st.translate = .ok st ∧
    (∀ l v, (st.replace_label l v).operands = st.operands) ∧
    fix_opcodes_one tab st =
      .error (.translation ("expected value starting with $, but got " ++ s)) := by
  refine ⟨?_, fun l v => rfl, ?_⟩
  · simp [Statement.translate, hco, hps, hop, pyTruthy, hne]
  · obtain ⟨st1, h1, he, hc, hoper, hl, ho, hm, hoc, had⟩ :=
      replace_all_labels_addr_ok tab st htab
    have hps1 : st1.is_pseudo_op = true := (is_pseudo_op_congr hm).trans hps
    have hco1 : st1.comment_only = false := hc.trans hco
    have hop1 : st1.operands = some s := ho.trans hop
    simp only [fix_opcodes_one, h1, exc_bind_ok]
    simp [Statement.fix_values, hco1, hps1, hop1, hnd]

/-- **C4**: a program with two statements declaring the same label fails
pass 2 (`Program.translate_statements`) with the duplicate-label
`TranslationError` raised at symbol-table-population time — the check
precedes the insertion, so the second definition never overwrites the first
entry — and the pipeline produces no output bytes. -/
theorem c4_duplicate_label (lines : List String) (stmts : List Statement)
    (i j : Nat) (sti stj : Statement)
    (hp : parse_lines lines = .ok stmts)
    (htr : ∀ st ∈ stmts, ∃ st', st.translate = .ok st')
    (hij : i < j) (hgi : stmts.get? i = some sti) (hgj : stmts.get? j = some stj)
    (hne : sti.get_label ≠ "") (heq : sti.get_label = stj.get_label) :
    (∃ L, translate_statements stmts =
      .error (.translation ("label [" ++ L ++ "] redefined"))) ∧
    (∀ r, assemble lines ≠ .ok r) ∧ (∀ bs, outputBytes lines ≠ .ok bs) := by
  obtain ⟨L, hL⟩ := translate_statements_go_dup stmts 0 [] htr
    (Or.inl ⟨i, j, sti, stj, hij, hgi, hgj, hne, heq⟩)
  have hasm : ∀ r, assemble lines ≠ .ok r := by
    intro r hr
    rw [assemble, hp, exc_bind_ok, show translate_statements stmts =
      translate_statements_go stmts 0 [] from rfl, hL, exc_bind_err] at hr
    exact Except.noConfusion hr
  refine ⟨⟨L, hL⟩, hasm, ?_⟩
  intro bs hbs
  rw [outputBytes] at hbs
  cases ha : assemble lines with
  | error e => rw [ha, exc_bind_err] at hbs; exact Except.noConfusion hbs
  | ok r => exact absurd ha (hasm r)

/-- Witness for C4: the two-line program `dup CLR` / `dup RTS` defines the
label `dup` twice. -/
theorem c4_duplicate_label_witness :
    (∃ L, translate_statements
        [{ empty := false, label := some "dup", mnemonic := some "CLR" },
         { empty := false, label := some "dup", mnemonic := some "RTS" }] =
      .error (.translation ("label [" ++ L ++ "] redefined"))) ∧
    (∀ bs, outputBytes ["dup CLR ", "dup RTS "] ≠ .ok bs) := by
  have h := c4_duplicate_label ["dup CLR ", "dup RTS "]
    [{ empty := false, label := some "dup", mnemonic := some "CLR" },
     { empty := false, label := some "dup", mnemonic := some "RTS" }]
    0 1
    { empty := false, label := some "dup", mnemonic := some "CLR" }
    { empty := false, label := some "dup", mnemonic := some "RTS" }
    (by decide)
    (by
      intro st hst
      rw [List.mem_cons, List.mem_singleton] at hst
      rcases hst with rfl | rfl
      · exact ⟨{ empty := false, label := some "dup", mnemonic := some "CLR",
                 operation := some ⟨"CLR", "00E0", 0, 0, 0, 0⟩ }, by decide⟩
      · exact ⟨{ empty := false, label := some "dup", mnemonic := some "RTS",
                 operation := some ⟨"RTS", "00EE", 0, 0, 0, 0⟩ }, by decide⟩)
    (by decide) (by decide) (by decide) (by decide) (by decide)
  exact ⟨h.1, h.2.2⟩

/-- The code-side consumption loop agrees with the spec's fixed-index
consumption contract on every operation and token list. -/
theorem consume_slots_eq_spec (op : Operation) (tokens : List String) :
    Statement.consume_slots op tokens = spec_consume op tokens := by
  by_cases h1 : op.source = 0 <;> by_cases h2 : op.target = 0 <;>
    by_cases h3 : op.numeric = 0 <;>
    simp only [Statement.consume_slots, spec_consume, h1, h2, h3, ne_eq,
      not_true_eq_false, not_false_eq_true, if_true, if_false, ite_true, ite_false,
      Nat.zero_add, Nat.add_zero, exc_bind_ok] <;>
    repeat
      first
      | rfl
      | (split <;> try simp_all only [Except.map, exc_pure, exc_bind_ok, exc_bind_err])

/-- **C6**: for a real-instruction statement, `Statement.translate` splits
the raw operand string on `,`, fails with a `TranslationError` whenever the
token count differs from the template's declared operand count, and when the
count matches consumes the tokens in the fixed order source → target →
numeric, a slot consuming a token only if the template declares it (the
code-side consumption loop coincides with the spec's fixed-index consumption
contract). -/
theorem c6_operand_count_and_order (st : Statement) (op : Operation)
    (hco : st.comment_only = false) (hps : st.is_pseudo_op = false)
    (hfind : OPERATIONS.find? (fun o => some o.mnemonic = st.mnemonic) = some op) :
    (∀ s, st.operands = some s → s ≠ "" →
      Statement.operand_tokens st.operands = splitComma s) ∧
    ((Statement.operand_tokens st.operands).length ≠ op.operands →
      st.translate = .error (.translation
        ("expected " ++ toString op.operands ++ " operand(s), but got " ++
          toString (Statement.operand_tokens st.operands).length))) ∧
    (Statement.consume_slots op (Statement.operand_tokens st.operands) =
      spec_consume op (Statement.operand_tokens st.operands)) ∧
    ((Statement.operand_tokens st.operands).length = op.operands →
      ∀ src tgt num,
        spec_consume op (Statement.operand_tokens st.operands) = .ok (src, tgt, num) →
        st.translate = .ok { st with
          operation := some op,
          source := Statement.mergeSlot src st.source,
          target := Statement.mergeSlot tgt st.target,
          numeric := Statement.mergeSlot num st.numeric }) := by
  refine ⟨?_, ?_, consume_slots_eq_spec op _, ?_⟩
  · intro s hs hne
    simp [Statement.operand_tokens, hs, hne]
  · intro hlen
    simp [Statement.translate, hco, hps, hfind, hlen]
  · intro hlen src tgt num hcons
    have hc : Statement.consume_slots op (Statement.operand_tokens st.operands) =
        .ok (src, tgt, num) :=
      (consume_slots_eq_spec op _).trans hcons
    simp [Statement.translate, hco, hps, hfind, hlen, hc]

/-- Witness for C6: `DRAW` declares 3 operands, so `DRAW r1,r2` fails with
the count error, while the consumption loop on `DRAW r1,r2,$5` agrees with
the spec contract. -/
theorem c6_operand_count_and_order_witness :
    ({ empty := false, mnemonic := some "DRAW", operands := some "r1,r2" } :
        Statement).translate =
      .error (.translation "expected 3 operand(s), but got 2") ∧
    Statement.consume_slots ⟨"DRAW", "Dstn", 3, 1, 1, 1⟩ ["r1", "r2", "$5"] =
      spec_consume ⟨"DRAW", "Dstn", 3, 1, 1, 1⟩ ["r1", "r2", "$5"] := by
  constructor
  · have h := (c6_operand_count_and_order
      { empty := false, mnemonic := some "DRAW", operands := some "r1,r2" }
      ⟨"DRAW", "Dstn", 3, 1, 1, 1⟩ rfl (by decide) (by decide)).2.1 (by decide)
    simpa using h
  · have h := (c6_operand_count_and_order
      { empty := false, mnemonic := some "DRAW", operands := some "r1,r2,$5" }
      ⟨"DRAW", "Dstn", 3, 1, 1, 1⟩ rfl (by decide) (by decide)).2.2.1
    simpa using h

/-- **C5**: a token destined for a source or target slot must lexically be
the letter `r`/`R` followed by exactly one hexadecimal digit; any other
token makes `Statement.get_register` — and hence `Statement.translate`,
when such a token is consumed for a declared source slot — fail with a
`TranslationError`, while a valid register token resolves to the single
uppercase hex digit of the register number. -/
theorem c5_register_token_shape (s : String) :
    (claimRegToken s = false →
      ∃ msg, Statement.get_register s = .error (.translation msg)) ∧
    (∀ r d v, s.data = [r, d] → (r = 'r' ∨ r = 'R') → hexDigitVal d = some v →
      Statement.get_register s = .ok (String.mk [(Nat.digitChar v).toUpper])) ∧
    (∀ (st : Statement) (op : Operation),
      st.comment_only = false → st.is_pseudo_op = false →
      OPERATIONS.find? (fun o => some o.mnemonic = st.mnemonic) = some op →
      op.source ≠ 0 →
      (Statement.operand_tokens st.operands).length = op.operands →
      (Statement.operand_tokens st.operands).get? 0 = some s →
      claimRegToken s = false →
      ∃ msg, st.translate = .error (.translation msg)) := by
  refine ⟨fun h => get_register_err h, fun r d v hs hr hd => get_register_ok hs hr hd, ?_⟩
  intro st op hco hps hfind hsrc hcount htok h
  obtain ⟨msg, hmsg⟩ := get_register_err h
  refine ⟨msg, ?_⟩
  rw [List.get?_eq_getElem?] at htok
  simp [Statement.translate, hco, hps, hfind, Statement.consume_slots, hsrc, hcount, htok,
    hmsg, exc_bind_err]

/-- Witness for C5: the malformed token `r11` is rejected, the token `rb`
resolves to `B`, and the statement parsed from `" SKPR r11 "` fails to
translate. -/
theorem c5_register_token_shape_witness :
    (claimRegToken "r11" = false ∧
      ∃ msg, Statement.get_register "r11" = .error (.translation msg)) ∧
    Statement.get_register "rb" = .ok "B" ∧
    (∃ msg, ({ empty := false, mnemonic := some "SKPR", operands := some "r11" } :
        Statement).translate = .error (.translation msg)) := by
  refine ⟨⟨by decide, (c5_register_token_shape "r11").1 (by decide)⟩, ?_, ?_⟩
  · have h := (c5_register_token_shape "rb").2.1 'r' 'b' 11 rfl (Or.inl rfl) (by decide)
    simpa using h
  · exact (c5_register_token_shape "r11").2.2
      { empty := false, mnemonic := some "SKPR", operands := some "r11" }
      ⟨"SKPR", "Es9E", 1, 1, 0, 0⟩ rfl (by decide) (by decide) (by decide) (by decide)
      (by decide) (by decide)

/-- Witness for C9: the statement parsed from `"   FCB   label   "`, with
`label` present in the symbol table at address `0x200`. -/
theorem c9_pseudo_label_not_substituted_witness :
    ({ empty := false, mnemonic := some "FCB", operands := some "label" } : Statement).translate =
      .ok { empty := false, mnemonic := some "FCB", operands := some "label" } ∧
    fix_opcodes_one [("label", SymVal.addr "0x200")]
        { empty := false, mnemonic := some "FCB", operands := some "label" } =
      .error (.translation "expected value starting with $, but got label") := by
  have h := c9_pseudo_label_not_substituted
    { empty := false, mnemonic := some "FCB", operands := some "label" }
    [("label", SymVal.addr "0x200")] "label"
    (by decide) (by decide) rfl (by decide) (by decide)
    (by rintro p hp; rw [List.mem_singleton] at hp; exact ⟨"0x200", by rw [hp]⟩)
  exact ⟨h.1, h.2.2⟩

/-- `zfill` to a width at least the string's length produces exactly the
requested width. -/
theorem pyZfill_len (s : String) (k : Nat) (h : pyLen s ≤ k) :
    pyLen (pyZfill s k) = k := by
  unfold pyZfill
  by_cases hge : pyLen s ≥ k
  · rw [if_pos hge]; omega
  · rw [if_neg hge]
    unfold pyLen at h hge
    cases hs : s.data with
    | nil => simp [pyLen]
    | cons c rest =>
      rw [hs] at h hge
      simp only [List.length_cons] at h hge
      by_cases hsign : c = '+' || c = '-'
      · simp only [hsign, if_true]
        simp only [pyLen, hs, List.length_cons, List.length_append,
          List.length_replicate]
        omega
      · simp only [hsign, Bool.false_eq_true, if_false]
        simp only [pyLen, hs, List.length_cons, List.length_append,
          List.length_replicate]
        omega

/-- The substituted opcode of pass 4 has the template's length, 4, whenever
the slot values fit their slots. -/
theorem spec_substituted_len (op : Operation) (hok : templateOK op = true)
    (src tgt nv : String)
    (hs : op.source = 1 → pyLen src = 1) (ht : op.target = 1 → pyLen tgt = 1)
    (hn : op.numeric ≠ 0 → pyLen nv ≤ op.numeric) :
    pyLen (spec_substituted_opcode op src tgt nv) = 4 := by
  have hok' := hok
  unfold templateOK at hok'
  simp only [Bool.and_eq_true, decide_eq_true_eq, List.all_eq_true] at hok'
  obtain ⟨⟨⟨⟨⟨hglue, hD⟩, hlen4⟩, hsle⟩, htle⟩, hnle⟩ := hok'
  have hgl : (tmplDecomp op).1.length + op.source + (tmplDecomp op).2.1.length +
      op.target + (tmplDecomp op).2.2.1.length + op.numeric +
      (tmplDecomp op).2.2.2.length = 4 := by
    have hc := congrArg List.length hglue
    simp only [List.length_append, List.length_replicate] at hc
    omega
  have hsl : (if op.source = 1 then src.data else []).length = op.source := by
    by_cases h1 : op.source = 1
    · have hd := hs h1
      unfold pyLen at hd
      simp [h1, hd]
    · simp only [h1, if_false, List.length_nil]
      omega
  have htl : (if op.target = 1 then tgt.data else []).length = op.target := by
    by_cases h2 : op.target = 1
    · have hd := ht h2
      unfold pyLen at hd
      simp [h2, hd]
    · simp only [h2, if_false, List.length_nil]
      omega
  have hnl : (if op.numeric ≠ 0 then (pyZfill nv op.numeric).data else []).length =
      op.numeric := by
    by_cases h3 : op.numeric = 0
    · simp [h3]
    · have hd := pyZfill_len nv op.numeric (hn h3)
      unfold pyLen at hd
      simp [h3, hd]
  have hmk : ∀ l : List Char, pyLen (String.mk l) = l.length := fun l => rfl
  unfold spec_substituted_opcode
  rw [hmk]
  simp only [List.length_append, hsl, htl, hnl]
  omega

/-- An error-propagating map that succeeds preserves the list length. -/
theorem mapME_ok_length {α β : Type} (f : α → Except Err β) :
    ∀ (xs : List α) (ys : List β), mapME f xs = .ok ys → ys.length = xs.length := by
  intro xs
  induction xs with
  | nil =>
    intro ys h
    simp only [mapME, Except.ok.injEq] at h
    rw [← h]
    rfl
  | cons x xs ih =>
    intro ys h
    unfold mapME at h
    cases hf : f x with
    | error e => rw [hf] at h; simp [exc_bind_err] at h
    | ok y =>
      rw [hf] at h
      cases hr : mapME f xs with
      | error e => rw [hr] at h; simp [exc_bind_err, exc_bind_ok] at h
      | ok ys' =>
        rw [hr] at h
        simp only [exc_bind_ok, exc_pure, Except.ok.injEq] at h
        rw [← h, List.length_cons, ih ys' hr, List.length_cons]

/-- The number of two-character chunks of an `n`-character op code is
`(n + 1) / 2` when the fuel suffices. -/
theorem byteChunks_length :
    ∀ (fuel : Nat) (cs : List Char), cs.length < fuel →
      (byteChunks fuel cs).length = (cs.length + 1) / 2 := by
  intro fuel
  induction fuel with
  | zero => intro cs h; omega
  | succ f ih =>
    intro cs h
    match cs with
    | [] => simp [byteChunks]
    | [c] => simp [byteChunks]
    | c1 :: c2 :: rest =>
      have hr : rest.length < f := by
        simp only [List.length_cons] at h
        omega
      simp only [byteChunks, List.length_cons, ih rest hr]
      omega

/-- The machine codes of one statement: their count is the statement's
emitted width. -/
theorem statement_codes_length (st : Statement) (vs : List Int)
    (h : statement_codes st = .ok vs) :
    vs.length = emittedWidth st := by
  unfold statement_codes at h
  cases hoc : st.op_code with
  | none => rw [hoc] at h; exact absurd h (by simp)
  | some code =>
    rw [hoc] at h
    have hl := mapME_ok_length _ _ _ h
    rw [hl, byteChunks_length (pyLen code + 1) code.data (by unfold pyLen; omega)]
    unfold emittedWidth
    rw [hoc]
    rfl

/-- A successful run of `statement_codes` over a statement list produces
chunk lists whose lengths are the statements' emitted widths. -/
theorem mapME_codes_lengths :
    ∀ (l : List Statement) (codes : List (List Int)),
      mapME statement_codes l = .ok codes →
      codes.map List.length = l.map emittedWidth := by
  intro l
  induction l with
  | nil =>
    intro codes h
    simp only [mapME, Except.ok.injEq] at h
    rw [← h]
    rfl
  | cons st l ih =>
    intro codes h
    unfold mapME at h
    cases hf : statement_codes st with
    | error e => rw [hf] at h; simp [exc_bind_err] at h
    | ok vs =>
      rw [hf] at h
      cases hr : mapME statement_codes l with
      | error e => rw [hr] at h; simp [exc_bind_err, exc_bind_ok] at h
      | ok rest =>
        rw [hr] at h
        simp only [exc_bind_ok, exc_pure, Except.ok.injEq] at h
        rw [← h]
        simp only [List.map_cons]
        rw [ih rest hr, statement_codes_length st vs hf]

/-- **C2**, amended: whenever `save_binary` succeeds, the length of the
emitted byte sequence equals the sum, over the non-blank non-comment
statements, of `(len(op_code) + 1) / 2` — the op code's hex digits chunked
two at a time.  For a real instruction completing pass 4 this width is
always 2, because the substituted opcode keeps the template's 4 characters.
For a pseudo-op statement (`FCB` and `FDB` alike — the emitter never
distinguishes them) the op code is the bare hex rendering of the operand's
value, so the width is the value's digit count rounded up to a byte: `FCB
$AB` emits 1 byte, but `FDB $A` also emits 1 byte, not 2. -/
theorem c2_emitted_length (stmts : List Statement) (bs : List Nat)
    (hsb : save_binary stmts = .ok bs) :
    (bs.length =
      ((stmts.filter (fun st => ¬ st.empty && ¬ st.comment_only)).map emittedWidth).sum) ∧
    (∀ (st : Statement) (op : Operation) (st' : Statement),
      st.comment_only = false → st.is_pseudo_op = false →
      st.operation = some op → op ∈ OPERATIONS →
      (op.source = 1 → ∃ c, st.source = some (String.mk [c]) ∧ notPH c = true) →
      (op.target = 1 → ∃ c, st.target = some (String.mk [c]) ∧ notPH c = true) →
      (op.numeric ≠ 0 → ∃ nv, st.numeric = some nv ∧ pyLen nv ≤ op.numeric) →
      st.fix_values = .ok st' →
      ∃ c, st'.op_code = some c ∧ emittedWidth st' = 2) ∧
    (∀ (st : Statement) (ops : String) (n : Nat),
      st.comment_only = false → st.is_pseudo_op = true →
      st.operands = some ops → pyStartsWith ops "$" = true →
      pyIntHex (strDrop ops 1) = some (Int.ofNat n) →
      ∃ c, st.fix_values = .ok { st with op_code := some c } ∧
        pyLen c = (natToHexDigits n).length) := by
  refine ⟨?_, ?_, ?_⟩
  · unfold save_binary at hsb
    cases hc : mapME statement_codes
        (stmts.filter (fun st => ¬ st.empty && ¬ st.comment_only)) with
    | error e => rw [hc] at hsb; simp [exc_bind_err] at hsb
    | ok codes =>
      rw [hc] at hsb
      simp only [exc_bind_ok] at hsb
      have h1 : bs.length = codes.flatten.length := mapME_ok_length _ _ _ hsb
      rw [h1, List.length_flatten, mapME_codes_lengths _ _ hc]
  · intro st op st' hco hps hop hmem hsrc htgt hnum hfix
    have hok : templateOK op = true := List.all_eq_true.mp all_templates_ok op hmem
    have h := fix_values_real_ok st op hco hps hop hok hsrc htgt hnum
    rw [h] at hfix
    simp only [Except.ok.injEq] at hfix
    subst hfix
    refine ⟨spec_substituted_opcode op (st.source.getD "") (st.target.getD "")
      (st.numeric.getD ""), rfl, ?_⟩
    unfold emittedWidth
    have hlen := spec_substituted_len op hok (st.source.getD "") (st.target.getD "")
      (st.numeric.getD "")
      (fun h1 => by obtain ⟨c, hc1, _⟩ := hsrc h1; rw [hc1]; rfl)
      (fun h2 => by obtain ⟨c, hc1, _⟩ := htgt h2; rw [hc1]; rfl)
      (fun h3 => by obtain ⟨nv, hc1, hle⟩ := hnum h3; rw [hc1]; exact hle)
    show (pyLen ((some (spec_substituted_opcode op (st.source.getD "") (st.target.getD "")
      (st.numeric.getD ""))).getD "") + 1) / 2 = 2
    rw [Option.getD_some, hlen]
  · intro st ops n hco hps hops hstart hval
    unfold Statement.fix_values
    simp only [hco, Bool.false_eq_true, if_false, hps, if_true]
    rw [hops]
    simp only [hstart, not_true_eq_false, Bool.not_true, Bool.false_eq_true, if_false]
    unfold Statement.get_value
    rw [if_pos hstart, hval]
    refine ⟨strUpper (strDrop (pyHex (Int.ofNat n)) 2), ?_, ?_⟩
    · simp [exc_bind_ok, exc_pure]
    · rw [show pyHex (Int.ofNat n) = String.mk ('0' :: 'x' :: natToHexDigits n) from by
        unfold pyHex
        rw [if_neg (show ¬ (Int.ofNat n < 0) from Int.not_lt.mpr (Int.ofNat_nonneg n))]
        rw [show (Int.ofNat n).toNat = n from rfl]]
      simp [strDrop, strUpper, pyLen]

/-- Witness for C2: a two-statement code list (a 4-digit real opcode and the
1-digit pseudo op code of `FDB $A`) emits 3 bytes; the `CLR` statement
completes pass 4 with a 2-byte op code; and `FCB $AB` receives the op code
`AB` of digit count 2. -/
theorem c2_emitted_length_witness :
    ([0x00, 0xE0, 0x0A] : List Nat).length =
      ((([{ empty := false, op_code := some "00E0" },
          { empty := false, op_code := some "A" }] : List Statement).filter
        (fun st => ¬ st.empty && ¬ st.comment_only)).map emittedWidth).sum ∧
    (∃ c, ({ empty := false, mnemonic := some "CLR",
             operation := some ⟨"CLR", "00E0", 0, 0, 0, 0⟩,
             op_code := some "00E0" } : Statement).op_code = some c ∧
      emittedWidth { empty := false, mnemonic := some "CLR",
                     operation := some ⟨"CLR", "00E0", 0, 0, 0, 0⟩,
                     op_code := some "00E0" } = 2) ∧
    (∃ c, ({ empty := false, mnemonic := some "FCB", operands := some "$AB" } :
        Statement).fix_values =
        .ok { empty := false, mnemonic := some "FCB", operands := some "$AB",
              op_code := some c } ∧
      pyLen c = (natToHexDigits 171).length) := by
  have h := c2_emitted_length
    [{ empty := false, op_code := some "00E0" }, { empty := false, op_code := some "A" }]
    [0x00, 0xE0, 0x0A] (by decide)
  refine ⟨h.1, ?_, ?_⟩
  · exact h.2.1 { empty := false, mnemonic := some "CLR",
                  operation := some ⟨"CLR", "00E0", 0, 0, 0, 0⟩ }
      ⟨"CLR", "00E0", 0, 0, 0, 0⟩
      { empty := false, mnemonic := some "CLR",
        operation := some ⟨"CLR", "00E0", 0, 0, 0, 0⟩, op_code := some "00E0" }
      rfl (by decide) rfl (by decide)
      (fun hh => absurd hh (by decide)) (fun hh => absurd hh (by decide))
      (fun hh => absurd hh (by decide)) (by decide)
  · exact h.2.2 { empty := false, mnemonic := some "FCB", operands := some "$AB" }
      "$AB" 171 rfl (by decide) rfl (by decide) (by decide)

theorem symTabGet_append_single (tab : SymTab) (k k' : String) (v : SymVal) (h : k' ≠ k) :
    symTabGet (tab ++ [(k', v)]) k = symTabGet tab k := by
  induction tab with
  | nil => simp [symTabGet, h]
  | cons p rest ih =>
    by_cases hp : p.1 = k <;> simp [symTabGet, hp, ih]

theorem symTabGet_map_set (tab : SymTab) (k k' : String) (v : SymVal) (h : k' ≠ k) :
    symTabGet (tab.map (fun p => if p.1 = k' then (k', v) else p)) k = symTabGet tab k := by
  induction tab with
  | nil => rfl
  | cons p rest ih =>
    by_cases hp : p.1 = k'
    · simp [symTabGet, hp, h, ih, Ne.symm h]
    · rw [List.map_cons, show (if p.1 = k' then (k', v) else p) = p from if_neg hp]
      by_cases hpk : p.1 = k <;> simp [symTabGet, hpk, ih]

theorem symTabGet_map_set_self (tab : SymTab) (k : String) (v : SymVal)
    (hc : symTabContains tab k = true) :
    symTabGet (tab.map (fun p => if p.1 = k then (k, v) else p)) k = some v := by
  induction tab with
  | nil => simp [symTabContains] at hc
  | cons p rest ih =>
    by_cases hp : p.1 = k
    · simp [symTabGet, hp]
    · have hc' : symTabContains rest k = true := by
        simpa [symTabContains, hp] using hc
      simp [symTabGet, hp, ih hc']

theorem symTabGet_append_self (tab : SymTab) (k : String) (v : SymVal)
    (hc : ¬ symTabContains tab k = true) :
    symTabGet (tab ++ [(k, v)]) k = some v := by
  induction tab with
  | nil => simp [symTabGet]
  | cons p rest ih =>
    have hp : ¬ (p.1 = k) := by
      intro hh
      exact hc (by simp [symTabContains, hh])
    have hc' : ¬ symTabContains rest k = true := by
      intro hh
      apply hc
      unfold symTabContains at hh ⊢
      simp [List.any_cons, hh]
    simp [symTabGet, hp, ih hc']

/-- Looking up the key just assigned finds the assigned value. -/
theorem symTabGet_set_self (tab : SymTab) (k : String) (v : SymVal) :
    symTabGet (symTabSet tab k v) k = some v := by
  unfold symTabSet
  by_cases hc : symTabContains tab k = true
  · rw [if_pos hc]
    exact symTabGet_map_set_self tab k v hc
  · rw [if_neg hc]
    exact symTabGet_append_self tab k v hc

/-- Assigning one key leaves every other key's binding unchanged. -/
theorem symTabGet_set_other (tab : SymTab) (k k' : String) (v : SymVal) (h : k' ≠ k) :
    symTabGet (symTabSet tab k' v) k = symTabGet tab k := by
  unfold symTabSet
  by_cases hc : symTabContains tab k' = true
  · rw [if_pos hc]
    exact symTabGet_map_set tab k k' v h
  · rw [if_neg hc]
    exact symTabGet_append_single tab k k' v h

/-- One unfolding step of pass 3: the emitted statement list. -/
theorem set_addresses_go_cons_list (st : Statement) (rest : List Statement)
    (tab : SymTab) (a : Nat) :
    (set_addresses_go (st :: rest) tab a).1 =
      { st with address := some (pyHex a) } ::
        (set_addresses_go rest
          (if st.get_label ≠ "" then symTabSet tab st.get_label (SymVal.addr (pyHex a))
           else tab)
          (if ¬ st.comment_only && ¬ st.empty then
            a + (if operationEqFCB st then 1 else 2)
           else a)).1 := rfl

/-- One unfolding step of pass 3: the final symbol table. -/
theorem set_addresses_go_cons_tab (st : Statement) (rest : List Statement)
    (tab : SymTab) (a : Nat) :
    (set_addresses_go (st :: rest) tab a).2.1 =
      (set_addresses_go rest
        (if st.get_label ≠ "" then symTabSet tab st.get_label (SymVal.addr (pyHex a))
         else tab)
        (if ¬ st.comment_only && ¬ st.empty then
          a + (if operationEqFCB st then 1 else 2)
         else a)).2.1 := rfl

/-- Pass 3 never touches the binding of a key that is no statement's label. -/
theorem set_addresses_go_preserve :
    ∀ (stmts : List Statement) (tab : SymTab) (a0 : Nat) (k : String),
      (∀ st ∈ stmts, st.get_label ≠ k) →
      symTabGet (set_addresses_go stmts tab a0).2.1 k = symTabGet tab k := by
  intro stmts
  induction stmts with
  | nil => intro tab a0 k _; rfl
  | cons st rest ih =>
    intro tab a0 k h
    rw [set_addresses_go_cons_tab]
    rw [ih _ _ k (fun q hq => h q (by simp [hq]))]
    by_cases hl : st.get_label ≠ ""
    · rw [if_pos hl]
      exact symTabGet_set_other tab k st.get_label _ (h st (by simp))
    · rw [if_neg hl]

/-- Pass 3 stamp/table correspondence: a uniquely labelled statement ends up
with `hex(address)` stamped on it, and the final symbol table binds its
label to exactly that string. -/
theorem set_addresses_go_stamp :
    ∀ (stmts : List Statement) (tab : SymTab) (a0 : Nat) (i : Nat) (dst : Statement),
      stmts.get? i = some dst → dst.get_label ≠ "" →
      (∀ j st2, stmts.get? j = some st2 → st2.get_label = dst.get_label → j = i) →
      ∃ dst', (set_addresses_go stmts tab a0).1.get? i = some dst' ∧
        ∃ h, dst'.address = some h ∧
          symTabGet (set_addresses_go stmts tab a0).2.1 dst.get_label =
            some (SymVal.addr h) := by
  intro stmts
  induction stmts with
  | nil =>
    intro tab a0 i dst hi _ _
    simp [List.get?] at hi
  | cons st rest ih =>
    intro tab a0 i dst hi hne huniq
    cases i with
    | zero =>
      have hst : st = dst := Option.some.inj hi
      subst hst
      refine ⟨{ st with address := some (pyHex a0) }, ?_, pyHex a0, rfl, ?_⟩
      · rw [set_addresses_go_cons_list]
        rfl
      · rw [set_addresses_go_cons_tab]
        have hnone : ∀ q ∈ rest, q.get_label ≠ st.get_label := by
          intro q hq hlbl
          obtain ⟨j, hj⟩ := List.get?_of_mem hq
          have hj' : (st :: rest).get? (j + 1) = some q := hj
          have := huniq (j + 1) q hj' hlbl
          omega
        rw [set_addresses_go_preserve rest _ _ st.get_label hnone]
        rw [if_pos hne]
        exact symTabGet_set_self tab st.get_label _
    | succ j =>
      have hi' : rest.get? j = some dst := hi
      have huniq' : ∀ j' st2, rest.get? j' = some st2 →
          st2.get_label = dst.get_label → j' = j := by
        intro j' st2 hj' hl
        have hj'' : (st :: rest).get? (j' + 1) = some st2 := hj'
        have := huniq (j' + 1) st2 hj'' hl
        omega
      obtain ⟨dst', h1, h, h2, h3⟩ := ih
        (if st.get_label ≠ "" then symTabSet tab st.get_label (SymVal.addr (pyHex a0))
         else tab)
        (if ¬ st.comment_only && ¬ st.empty then
          a0 + (if operationEqFCB st then 1 else 2)
         else a0)
        j dst hi' hne huniq'
      refine ⟨dst', ?_, h, h2, ?_⟩
      · rw [set_addresses_go_cons_list]
        exact h1
      · rw [set_addresses_go_cons_tab]
        exact h3

/-- The substitution fold of pass 4 leaves a numeric slot alone when no
table key matches its content. -/
theorem replace_all_labels_keep :
    ∀ (tab : SymTab) (st : Statement) (v : String),
      (∀ p ∈ tab, ∃ b, p.2 = SymVal.addr b) →
      st.numeric = some v →
      (∀ p ∈ tab, p.1 ≠ v) →
      ∃ st1, replace_all_labels tab st = .ok st1 ∧ st1.numeric = some v := by
  intro tab
  induction tab with
  | nil => intro st v _ hnum _; exact ⟨st, rfl, hnum⟩
  | cons p rest ih =>
    intro st v htab hnum hnokey
    obtain ⟨b, hb⟩ := htab p (by simp)
    have hstep : (st.replace_label p.1 (strDrop b 2)).numeric = some v := by
      simp only [Statement.replace_label, hnum]
      rw [if_neg (show ¬ (some v = some p.1) from fun hh =>
        hnokey p (by simp) (Option.some.inj hh).symm)]
    obtain ⟨st1, h1, h2⟩ := ih (st.replace_label p.1 (strDrop b 2)) v
      (fun q hq => htab q (by simp [hq])) hstep (fun q hq => hnokey q (by simp [hq]))
    exact ⟨st1,
      by simpa [replace_all_labels, foldME, hb, symValSlice, Except.bind] using h1, h2⟩

/-- The substitution fold of pass 4 rewrites a numeric slot holding label
`L` to the address digits bound to `L`, provided no key collides with those
digits. -/
theorem replace_all_labels_subst :
    ∀ (tab : SymTab) (st : Statement) (L a : String),
      (∀ p ∈ tab, ∃ b, p.2 = SymVal.addr b) →
      st.numeric = some L →
      (L, SymVal.addr a) ∈ tab →
      (∀ p ∈ tab, p.1 = L → p.2 = SymVal.addr a) →
      (∀ p ∈ tab, p.1 ≠ strDrop a 2) →
      ∃ st1, replace_all_labels tab st = .ok st1 ∧
        st1.numeric = some (strDrop a 2) := by
  intro tab
  induction tab with
  | nil => intro st L a _ _ hmem _ _; simp at hmem
  | cons p rest ih =>
    intro st L a htab hnum hmem huniq hnocol
    obtain ⟨b, hb⟩ := htab p (by simp)
    by_cases hp : p.1 = L
    · have hpa : p.2 = SymVal.addr a := huniq p (by simp) hp
      have hba : b = a := by
        rw [hb] at hpa
        exact SymVal.addr.inj hpa
      subst hba
      have hstep : (st.replace_label p.1 (strDrop b 2)).numeric = some (strDrop b 2) := by
        simp only [Statement.replace_label, hnum]
        rw [if_pos (by rw [hp])]
      obtain ⟨st1, h1, h2⟩ := replace_all_labels_keep rest
        (st.replace_label p.1 (strDrop b 2)) (strDrop b 2)
        (fun q hq => htab q (by simp [hq])) hstep
        (fun q hq => hnocol q (by simp [hq]))
      exact ⟨st1,
        by simpa [replace_all_labels, foldME, hb, symValSlice, Except.bind] using h1, h2⟩
    · have hstep : (st.replace_label p.1 (strDrop b 2)).numeric = some L := by
        simp only [Statement.replace_label, hnum]
        rw [if_neg (show ¬ (some L = some p.1) from fun hh =>
          hp (Option.some.inj hh).symm)]
      have hmem' : (L, SymVal.addr a) ∈ rest := by
        rcases List.mem_cons.mp hmem with hh | hh
        · exact absurd (congrArg Prod.fst hh.symm) hp
        · exact hh
      obtain ⟨st1, h1, h2⟩ := ih (st.replace_label p.1 (strDrop b 2)) L a
        (fun q hq => htab q (by simp [hq])) hstep hmem'
        (fun q hq hql => huniq q (by simp [hq]) hql)
        (fun q hq => hnocol q (by simp [hq]))
      exact ⟨st1,
        by simpa [replace_all_labels, foldME, hb, symValSlice, Except.bind] using h1, h2⟩

/-- **C3**, amended: label resolution is position-independent but only
collision-free modulo label names.  First conjunct (pass 4): for a symbol
table holding only address strings, a statement whose numeric slot holds
label `L` — no matter where that statement sits relative to `L`'s defining
statement, since pass 4 only consults the finished table — gets the slot
rewritten to the address digits bound to `L` (the table value minus its
`0x` prefix), provided `L`'s binding is unambiguous and no table key (label
name) collides with the substituted digit string; the counterexample shows
the substitution cascading without that proviso.  Second conjunct (pass 3):
the table value bound to a uniquely defined label is exactly the
`hex(address)` string stamped on the defining statement. -/
theorem c3_label_resolution_amended (tab : SymTab) (st : Statement) (L a : String)
    (htab : ∀ p ∈ tab, ∃ b, p.2 = SymVal.addr b)
    (hnum : st.numeric = some L)
    (hmem : (L, SymVal.addr a) ∈ tab)
    (huniq : ∀ p ∈ tab, p.1 = L → p.2 = SymVal.addr a)
    (hnocol : ∀ p ∈ tab, p.1 ≠ strDrop a 2) :
    (∃ st1, replace_all_labels tab st = .ok st1 ∧
      st1.numeric = some (strDrop a 2)) ∧
    (∀ (stmts : List Statement) (tab0 : SymTab) (i : Nat) (dst : Statement),
      stmts.get? i = some dst → dst.get_label ≠ "" →
      (∀ j st2, stmts.get? j = some st2 → st2.get_label = dst.get_label → j = i) →
      ∃ dst', (set_addresses stmts tab0).1.get? i = some dst' ∧
        ∃ h, dst'.address = some h ∧
          symTabGet (set_addresses stmts tab0).2.1 dst.get_label =
            some (SymVal.addr h)) := by
  constructor
  · exact replace_all_labels_subst tab st L a htab hnum hmem huniq hnocol
  · intro stmts tab0 i dst hi hne huniq2
    exact set_addresses_go_stamp stmts tab0 0x200 i dst hi hne huniq2

/-- Witness for C3: the table `{label ↦ 0x200}` resolves a numeric slot
holding `label` to `200` whether the referencing statement precedes or
follows the definition, and pass 3 on a one-statement program stamps
`0x200` on the labelled statement and binds `label` to the same string. -/
theorem c3_label_resolution_amended_witness :
    (∃ st1, replace_all_labels [("label", SymVal.addr "0x200")]
        { numeric := some "label" } = .ok st1 ∧ st1.numeric = some "200") ∧
    (∃ dst', (set_addresses [{ empty := false, label := some "label", mnemonic := some "CLR" }] []).1.get? 0 = some dst' ∧
      ∃ h, dst'.address = some h ∧
        symTabGet (set_addresses [{ empty := false, label := some "label", mnemonic := some "CLR" }] []).2.1 "label" = some (SymVal.addr h)) := by
  have h := c3_label_resolution_amended [("label", SymVal.addr "0x200")]
    { numeric := some "label" } "label" "0x200"
    (fun p hp => ⟨"0x200", by rw [List.mem_singleton] at hp; rw [hp]⟩)
    rfl (by simp)
    (fun p hp _ => by rw [List.mem_singleton] at hp; rw [hp])
    (fun p hp => by rw [List.mem_singleton] at hp; rw [hp]; decide)
  constructor
  · obtain ⟨st1, h1, h2⟩ := h.1
    exact ⟨st1, h1, by rw [h2]; rfl⟩
  · refine h.2 [{ empty := false, label := some "label", mnemonic := some "CLR" }] []
      0 { empty := false, label := some "label", mnemonic := some "CLR" }
      rfl (by decide) ?_
    intro j st2 hj _
    match j with
    | 0 => rfl
    | j' + 1 => exact absurd hj (by simp [List.get?])

end Chip8
